import Mathlib

/-!
Verification of the mcplug MCP client engine (Rust sources) against its
natural-language specification.  Rust functions are shallowly embedded as
executable Lean definitions; strings handled byte-wise in Rust are modelled
as `String` or `List Char` (the development only evaluates ASCII inputs, for
which Rust byte indices and char indices coincide).  External collaborators
(the process environment, the HTTP stack, serde_json parsing of full
documents) are passed in as explicit oracle parameters.
-/

/-- Model of `serde_json::Value`.  Numbers are split into the integer case
(`int`, produced by the `i64` coercion branch) and the finite-decimal case
(`dec sig exp`, denoting `sig * 10 ^ exp`, produced by the `f64` branch);
the model keeps the exact decimal rather than the rounded IEEE value, which
claims here never depend on.  Objects are association lists with unique keys
(as produced by serde_json maps). -/
inductive Json where
  | null : Json
  | bool (b : Bool) : Json
  | int (n : Int) : Json
  | dec (sig : Int) (exp : Int) : Json
  | str (s : String) : Json
  | arr (xs : List Json) : Json
  | obj (fields : List (String × Json)) : Json
deriving Repr, BEq

/-- Model of `serde_json::Value::get(key)` on an object: look the key up
(serde maps have unique keys, so first-match lookup is exact); `None` on
non-objects. -/
def Json.getField : Json → String → Option Json
  | .obj fields, k => (fields.find? (fun f => f.1 = k)).map Prod.snd
  | _, _ => none

/-- Model of `Value::as_str`. -/
def Json.asStr : Json → Option String
  | .str s => some s
  | _ => none

/-- Model of `McplugError` (src/error.rs).  Message strings are abbreviated;
only the error kind and its key payloads matter to the claims. -/
inductive McplugErr where
  | serverNotFound (server : String)
  | connectionFailed (server : String) (cause : String)
  | authRequired (server : String)
  | configError (path : String) (detail : String)
  | transportError (cause : String)
  | protocolError (detail : String)
  | oauthError (detail : String)
  | ioError (cause : String)
deriving Repr, BEq, DecidableEq

/-! ## C1 — stdio transport request/response loop (src/transports/stdio.rs) -/

/-- Model of `JsonRpcError` (src/transports/jsonrpc.rs). -/
structure JsonRpcErrorM where
  code : Int
  message : String
  data : Option Json
deriving Repr, BEq

/-- Model of `JsonRpcResponse` (src/transports/jsonrpc.rs): `jsonrpc` is
required by serde but carries no information used by the loop; `id`,
`result` and `error` are optional. -/
structure JsonRpcResponseM where
  id : Option Nat
  result : Option Json
  error : Option JsonRpcErrorM
deriving Repr, BEq

/-- One line read from the child's stdout, classified by the outcome of
`serde_json::from_str::<JsonRpcResponse>` on it: a blank line (read_line
returns a lone newline, which is not valid JSON) fails to parse, a
malformed line fails to parse, and an envelope line parses to a
`JsonRpcResponse`. -/
inductive RLine where
  | blank : RLine
  | garbage : RLine
  | env (e : JsonRpcResponseM) : RLine
deriving Repr, BEq

/-- Model of `serde_json::from_str::<JsonRpcResponse>` applied to one line. -/
def parseLine : RLine → Option JsonRpcResponseM
  | .blank => none
  | .garbage => none
  | .env e => some e

/-- Model of the read loop of `StdioTransport::send_request`
(src/transports/stdio.rs lines 112-141), reading from a finite stream of
pending stdout lines after the request with the given id has been written.
Exhausting the stream models a zero-byte read (child exited). -/
def send_request_loop (id : Nat) : List RLine → Except McplugErr JsonRpcResponseM
  | [] => .error (.transportError "server process exited unexpectedly")
  | l :: rest =>
    match parseLine l with
    | none => .error (.protocolError "failed to parse response")
    | some resp =>
      if resp.id = none then
        send_request_loop id rest
      else if resp.id = some id then
        .ok resp
      else
        send_request_loop id rest

def envOk : JsonRpcResponseM := ⟨some 1, some (Json.obj []), none⟩

/-- C1 counterexample: with response id 1 awaited, a blank line followed by
the matching envelope makes the loop fail with a ProtocolError instead of
discarding the blank line and resolving with the envelope; likewise for a
line that fails to parse as JSON. -/
theorem c1_counterexample :
    send_request_loop 1 [.blank, .env envOk]
      = .error (.protocolError "failed to parse response")
    ∧ send_request_loop 1 [.blank, .env envOk] ≠ .ok envOk
    ∧ send_request_loop 1 [.garbage, .env envOk]
      = .error (.protocolError "failed to parse response") := by
  refine ⟨rfl, ?_, rfl⟩
  intro h
  rw [show send_request_loop 1 [.blank, .env envOk]
      = .error (.protocolError "failed to parse response") from rfl] at h
  exact Except.noConfusion h

/-- C1 (amended): while awaiting the response to the request with id `i`,
any blank line or line that fails to parse as JSON is a protocol error (it
is not discarded); an envelope with no id is silently skipped; an envelope
whose id differs from `i` is skipped (with a warning); and the first
envelope whose id equals `i` resolves the call. -/
theorem c1_matching_resolves (i : Nat) (pre : List RLine)
    (hpre : ∀ x ∈ pre, ∃ ex, parseLine x = some ex ∧ ex.id ≠ some i) :
    (∀ l e rest, parseLine l = some e → e.id = some i →
        send_request_loop i (pre ++ l :: rest) = .ok e)
    ∧ (∀ b rest, parseLine b = none →
        send_request_loop i (pre ++ b :: rest)
          = .error (.protocolError "failed to parse response")) := by
  induction pre with
  | nil =>
    refine ⟨?_, ?_⟩
    · intro l e rest hl hid
      simp only [List.nil_append, send_request_loop, hl, hid]
      have : e.id ≠ none := by simp [hid]
      simp [this, hid]
    · intro b rest hb
      simp [send_request_loop, hb]
  | cons x pre ih =>
    have hx := hpre x (by simp)
    obtain ⟨ex, hxp, hxid⟩ := hx
    have hrest : ∀ y ∈ pre, ∃ ey, parseLine y = some ey ∧ ey.id ≠ some i := by
      intro y hy
      exact hpre y (by simp [hy])
    have ih := ih hrest
    refine ⟨?_, ?_⟩
    · intro l e rest hl hid
      simp only [List.cons_append, send_request_loop, hxp]
      by_cases hnone : ex.id = none
      · simp [hnone]
        exact ih.1 l e rest hl hid
      · simp [hnone, hxid]
        exact ih.1 l e rest hl hid
    · intro b rest hb
      simp only [List.cons_append, send_request_loop, hxp]
      by_cases hnone : ex.id = none
      · simp [hnone]
        exact ih.2 b rest hb
      · simp [hnone, hxid]
        exact ih.2 b rest hb

/-- Witness for `c1_matching_resolves` at a concrete stream: a notification
and a mismatched-id envelope precede the matching envelope. -/
theorem c1_witness :
    (∀ x ∈ [RLine.env ⟨none, none, none⟩, RLine.env ⟨some 7, none, none⟩],
        ∃ ex, parseLine x = some ex ∧ ex.id ≠ some 1)
    ∧ send_request_loop 1
        [RLine.env ⟨none, none, none⟩, RLine.env ⟨some 7, none, none⟩,
          RLine.env envOk] = .ok envOk := by
  constructor
  · intro x hx
    simp only [List.mem_cons, List.mem_singleton] at hx
    rcases hx with h | h | h
    · exact ⟨⟨none, none, none⟩, by simp [h, parseLine]⟩
    · exact ⟨⟨some 7, none, none⟩, by simp [h, parseLine]⟩
    · cases h
  · have h := (c1_matching_resolves 1
      [RLine.env ⟨none, none, none⟩, RLine.env ⟨some 7, none, none⟩]
      (by
        intro x hx
        simp only [List.mem_cons, List.mem_singleton] at hx
        rcases hx with h | h | h
        · exact ⟨⟨none, none, none⟩, by simp [h, parseLine]⟩
        · exact ⟨⟨some 7, none, none⟩, by simp [h, parseLine]⟩
        · cases h)).1
    exact h (RLine.env envOk) envOk [] rfl rfl

/-! ## C2 — initialize extraction on the two transports
(src/transports/stdio.rs lines 214-259, src/transports/http_sse.rs lines
229-275) -/

/-- Model of `ServerInfo` (src/types.rs). -/
structure ServerInfoM where
  name : String
  version : String
  capabilities : Json
deriving Repr, BEq

/-- The params object sent by `StdioTransport` with the first request:
protocolVersion "2024-11-05", empty capabilities, clientInfo with the
hard-coded version "0.1.0". -/
def stdio_init_params : Json :=
  Json.obj
    [("protocolVersion", Json.str "2024-11-05"),
     ("capabilities", Json.obj []),
     ("clientInfo",
       Json.obj [("name", Json.str "mcplug"), ("version", Json.str "0.1.0")])]

/-- The params object sent by `HttpSseTransport` with the first request:
protocolVersion "2025-03-26"; the clientInfo version is the crate version
spliced in at compile time, passed here as a parameter. -/
def http_init_params (pkgVersion : String) : Json :=
  Json.obj
    [("protocolVersion", Json.str "2025-03-26"),
     ("capabilities", Json.obj []),
     ("clientInfo",
       Json.obj [("name", Json.str "mcplug"), ("version", Json.str pkgVersion)])]

/-- Extraction of `ServerInfo` from the stdio transport's first-response
result: `serverInfo` defaults to `{}` when absent, `name` defaults to the
configured server name, `version` to "unknown", `capabilities` to `{}`. -/
def stdio_extract_server_info (serverName : String) (result : Json) :
    ServerInfoM :=
  let siv := (result.getField "serverInfo").getD (Json.obj [])
  { name := ((siv.getField "name").bind Json.asStr).getD serverName
    version := ((siv.getField "version").bind Json.asStr).getD "unknown"
    capabilities := (result.getField "capabilities").getD (Json.obj []) }

/-- Extraction of `ServerInfo` from the HTTP transport's first-response
result: an absent `serverInfo` is a ProtocolError; otherwise name, version
and capabilities are extracted with the same defaults as on stdio. -/
def http_extract_server_info (serverName : String) (result : Json) :
    Except McplugErr ServerInfoM :=
  match result.getField "serverInfo" with
  | none => .error (.protocolError "Initialize response missing serverInfo")
  | some siv =>
    .ok
      { name := ((siv.getField "name").bind Json.asStr).getD serverName
        version := ((siv.getField "version").bind Json.asStr).getD "unknown"
        capabilities := (result.getField "capabilities").getD (Json.obj []) }

/-- C2 counterexample: on a result without `serverInfo` the stdio transport
defaults and succeeds while the HTTP transport fails with a ProtocolError,
so the two initialize implementations do not differ only in the
protocolVersion they send, and the HTTP one does not default the absent
`serverInfo` object. -/
theorem c2_counterexample :
    stdio_extract_server_info "srv" (Json.obj [])
      = ⟨"srv", "unknown", Json.obj []⟩
    ∧ http_extract_server_info "srv" (Json.obj [])
      = .error (.protocolError "Initialize response missing serverInfo")
    ∧ (Except.error (McplugErr.protocolError
          "Initialize response missing serverInfo")
        : Except McplugErr ServerInfoM)
      ≠ .ok ⟨"srv", "unknown", Json.obj []⟩ :=
  ⟨rfl, rfl, fun h => Except.noConfusion h⟩

/-- C2 (amended): both transports extract serverInfo.name and
serverInfo.version with the same defaults (configured server name,
"unknown") and default capabilities to the empty object; but when the
`serverInfo` object itself is absent, stdio defaults it to `{}` while HTTP
fails with a ProtocolError; the protocolVersion sent is "2024-11-05" on
stdio and "2025-03-26" on HTTP. -/
theorem c2_initialize_extraction (name : String) (r : Json) :
    (r.getField "serverInfo" = none →
      stdio_extract_server_info name r
          = ⟨name, "unknown", (r.getField "capabilities").getD (Json.obj [])⟩
        ∧ http_extract_server_info name r
          = .error (.protocolError "Initialize response missing serverInfo"))
    ∧ (∀ siv, r.getField "serverInfo" = some siv →
        http_extract_server_info name r
          = .ok (stdio_extract_server_info name r))
    ∧ stdio_init_params.getField "protocolVersion"
        = some (Json.str "2024-11-05")
    ∧ ∀ v, (http_init_params v).getField "protocolVersion"
        = some (Json.str "2025-03-26") := by
  refine ⟨?_, ?_, rfl, fun v => rfl⟩
  · intro h
    constructor
    · unfold stdio_extract_server_info
      rw [h]
      rfl
    · unfold http_extract_server_info
      rw [h]
  · intro siv h
    unfold http_extract_server_info stdio_extract_server_info
    rw [h]
    rfl

/-- Witness for `c2_initialize_extraction` at concrete results: one result
without `serverInfo`, one with it present. -/
theorem c2_witness :
    (Json.obj []).getField "serverInfo" = none
    ∧ stdio_extract_server_info "srv" (Json.obj [])
        = ⟨"srv", "unknown", Json.obj []⟩
    ∧ (Json.obj [("serverInfo", Json.obj [("name", Json.str "real")])]
        ).getField "serverInfo" = some (Json.obj [("name", Json.str "real")])
    ∧ http_extract_server_info "srv"
        (Json.obj [("serverInfo", Json.obj [("name", Json.str "real")])])
        = .ok (stdio_extract_server_info "srv"
            (Json.obj [("serverInfo", Json.obj [("name", Json.str "real")])])) := by
  refine ⟨rfl, ?_, rfl, ?_⟩
  · exact ((c2_initialize_extraction "srv" (Json.obj [])).1 rfl).1
  · exact (c2_initialize_extraction "srv"
      (Json.obj [("serverInfo", Json.obj [("name", Json.str "real")])])).2.1
      (Json.obj [("name", Json.str "real")]) rfl

/-! ## C5 — token refresh path (src/oauth/flow.rs lines 62-88,
src/oauth/token.rs) -/

/-- Model of `TokenData` (src/oauth/token.rs); the expiry instant is an
integer timestamp. -/
structure TokenDataM where
  access_token : String
  refresh_tok : Option String
  expires_at : Option Int
  token_type : String
deriving Repr, BEq, DecidableEq

/-- Model of `TokenData::is_expired`: true iff `expires_at` is present and
`Utc::now() >= expires_at`. -/
def TokenDataM.is_expired (t : TokenDataM) (now : Int) : Bool :=
  match t.expires_at with
  | some expires => expires ≤ now
  | none => false

/-- Model of `OAuthMetadata` as used by the refresh path. -/
structure OAuthMetadataM where
  authorization_endpoint : String
  token_endpoint : String
deriving Repr, BEq, DecidableEq

/-- The form body POSTed by `refresh_token` (src/oauth/token.rs lines
87-94). -/
def refresh_token_form (refresh_tok client_id : String) :
    List (String × String) :=
  [("grant_type", "refresh_token"), ("refresh_token", refresh_tok),
   ("client_id", client_id)]

/-- Model of `get_valid_token` (src/oauth/flow.rs lines 62-88).  Network
and filesystem effects are passed as oracles: `cache` is the result of
`load_cached_token`, `discover` the result of `discover_oauth_metadata`,
`refreshOracle endpoint tok cid` the result of the `refresh_token` POST,
and `saveOracle t` the result of `save_token`.  Note the `?` operator on
discovery and save: their failures propagate unchanged, while a failure of
the refresh POST itself falls through to AuthRequired. -/
def get_valid_token (server_name : String) (now : Int)
    (cache : Option TokenDataM)
    (discover : Except McplugErr OAuthMetadataM)
    (refreshOracle : String → String → String → Except McplugErr TokenDataM)
    (saveOracle : TokenDataM → Except McplugErr Unit) :
    Except McplugErr TokenDataM :=
  match cache with
  | some token =>
    if token.is_expired now = false then .ok token
    else
      match token.refresh_tok with
      | some refresh_tok =>
        match discover with
        | .error e => .error e
        | .ok metadata =>
          match refreshOracle metadata.token_endpoint refresh_tok "mcplug" with
          | .ok new_token =>
            match saveOracle new_token with
            | .error e => .error e
            | .ok _ => .ok new_token
          | .error _ => .error (.authRequired server_name)
      | none => .error (.authRequired server_name)
  | none => .error (.authRequired server_name)

/-- C5 counterexample: with an expired cached token that has a refresh
token, a metadata-discovery failure propagates as an OAuthError instead of
being demoted to AuthRequired. -/
theorem c5_counterexample :
    get_valid_token "srv" 100 (some ⟨"at", some "rt", some 50, "Bearer"⟩)
        (.error (.oauthError "discovery failed"))
        (fun _ _ _ => .ok ⟨"new", none, none, "Bearer"⟩) (fun _ => .ok ())
      = .error (.oauthError "discovery failed")
    ∧ (Except.error (McplugErr.oauthError "discovery failed")
        : Except McplugErr TokenDataM)
      ≠ .error (.authRequired "srv") := by
  refine ⟨rfl, ?_⟩
  intro h
  simp at h

/-- C5 (amended): `get_valid_token` returns the cached TokenData when
`expires_at` is absent or in the future; when the token is expired and a
refresh_token exists it discovers metadata and POSTs grant_type =
refresh_token with the refresh token and client_id "mcplug" to the token
endpoint, saves and returns the new TokenData; a failure of the refresh
POST itself (and a missing cache or missing refresh token) demotes to
AuthRequired, while metadata-discovery failures and token-save failures
propagate as their own errors. -/
theorem c5_get_valid_token (server : String) (now : Int)
    (cache : Option TokenDataM) (discover : Except McplugErr OAuthMetadataM)
    (refreshOracle : String → String → String → Except McplugErr TokenDataM)
    (saveOracle : TokenDataM → Except McplugErr Unit) :
    (∀ t, cache = some t → t.is_expired now = false →
      get_valid_token server now cache discover refreshOracle saveOracle
        = .ok t)
    ∧ (cache = none →
      get_valid_token server now cache discover refreshOracle saveOracle
        = .error (.authRequired server))
    ∧ (∀ t, cache = some t → t.is_expired now = true → t.refresh_tok = none →
      get_valid_token server now cache discover refreshOracle saveOracle
        = .error (.authRequired server))
    ∧ (∀ t rt e, cache = some t → t.is_expired now = true →
        t.refresh_tok = some rt → discover = .error e →
      get_valid_token server now cache discover refreshOracle saveOracle
        = .error e)
    ∧ (∀ t rt m e, cache = some t → t.is_expired now = true →
        t.refresh_tok = some rt → discover = .ok m →
        refreshOracle m.token_endpoint rt "mcplug" = .error e →
      get_valid_token server now cache discover refreshOracle saveOracle
        = .error (.authRequired server))
    ∧ (∀ t rt m nt, cache = some t → t.is_expired now = true →
        t.refresh_tok = some rt → discover = .ok m →
        refreshOracle m.token_endpoint rt "mcplug" = .ok nt →
        saveOracle nt = .ok () →
      get_valid_token server now cache discover refreshOracle saveOracle
        = .ok nt)
    ∧ (∀ t rt m nt e, cache = some t → t.is_expired now = true →
        t.refresh_tok = some rt → discover = .ok m →
        refreshOracle m.token_endpoint rt "mcplug" = .ok nt →
        saveOracle nt = .error e →
      get_valid_token server now cache discover refreshOracle saveOracle
        = .error e) := by
  refine ⟨?_, ?_, ?_, ?_, ?_, ?_, ?_⟩
  · intro t hc hfresh
    simp [get_valid_token, hc, hfresh]
  · intro hc
    simp [get_valid_token, hc]
  · intro t hc hexp hrt
    simp [get_valid_token, hc, hexp, hrt]
  · intro t rt e hc hexp hrt hd
    simp [get_valid_token, hc, hexp, hrt, hd]
  · intro t rt m e hc hexp hrt hd hr
    simp [get_valid_token, hc, hexp, hrt, hd, hr]
  · intro t rt m nt hc hexp hrt hd hr hs
    simp [get_valid_token, hc, hexp, hrt, hd, hr, hs]
  · intro t rt m nt e hc hexp hrt hd hr hs
    simp [get_valid_token, hc, hexp, hrt, hd, hr, hs]

/-- Witness for `c5_get_valid_token`: the fresh-token case and the
successful refresh case at concrete inputs. -/
theorem c5_witness :
    (some (⟨"at", none, some 200, "Bearer"⟩ : TokenDataM)
        = some ⟨"at", none, some 200, "Bearer"⟩)
    ∧ TokenDataM.is_expired ⟨"at", none, some 200, "Bearer"⟩ 100 = false
    ∧ get_valid_token "srv" 100 (some ⟨"at", none, some 200, "Bearer"⟩)
        (.ok ⟨"a", "t"⟩) (fun _ _ _ => .ok ⟨"new", none, none, "Bearer"⟩)
        (fun _ => .ok ())
      = .ok ⟨"at", none, some 200, "Bearer"⟩
    ∧ get_valid_token "srv" 100 (some ⟨"at", some "rt", some 50, "Bearer"⟩)
        (.ok ⟨"a", "t"⟩) (fun _ _ _ => .ok ⟨"new", none, none, "Bearer"⟩)
        (fun _ => .ok ())
      = .ok ⟨"new", none, none, "Bearer"⟩ := by
  refine ⟨rfl, by decide, ?_, ?_⟩
  · exact (c5_get_valid_token "srv" 100 (some ⟨"at", none, some 200, "Bearer"⟩)
      (.ok ⟨"a", "t"⟩) (fun _ _ _ => .ok ⟨"new", none, none, "Bearer"⟩)
      (fun _ => .ok ())).1 ⟨"at", none, some 200, "Bearer"⟩ rfl (by decide)
  · exact (c5_get_valid_token "srv" 100
      (some ⟨"at", some "rt", some 50, "Bearer"⟩) (.ok ⟨"a", "t"⟩)
      (fun _ _ _ => .ok ⟨"new", none, none, "Bearer"⟩)
      (fun _ => .ok ())).2.2.2.2.2.1 ⟨"at", some "rt", some 50, "Bearer"⟩
      "rt" ⟨"a", "t"⟩ ⟨"new", none, none, "Bearer"⟩ rfl (by decide) rfl rfl rfl
      rfl

/-! ## C6 — HTTP session header cache (src/transports/http_sse.rs) -/

/-- Events observable at the HTTP transport's session-id cache.  A
`response` event is the HTTP reply to a POSTed request, with its success
flag and the value of its Mcp-Session-Id header when present (and
convertible to a string); `request` and `notif` are the header-attachment
points of `send_request` and `send_notification`; `closeEv` is `close`. -/
inductive HEvent where
  | response (ok : Bool) (sid : Option String) : HEvent
  | request : HEvent
  | notif : HEvent
  | closeEv : HEvent
deriving Repr, BEq, DecidableEq

/-- One step of the session-id cache (the `session_id: Mutex<Option<String>>`
field): `send_request` stores the Mcp-Session-Id header of a successful
response (non-2xx responses return early, before header extraction);
sending a request or notification only reads the cache; `close` sends a
best-effort `notifications/cancelled` and never touches the cache. -/
def session_step (st : Option String) : HEvent → Option String
  | .response ok sid =>
    if ok then
      match sid with
      | some s => some s
      | none => st
    else st
  | .request => st
  | .notif => st
  | .closeEv => st

/-- The session-id cache after a trace of events. -/
def session_run (st : Option String) (evs : List HEvent) : Option String :=
  evs.foldl session_step st

/-- Specification-side step: remember the session id of a successful
response carrying a Mcp-Session-Id header, keep the accumulator otherwise. -/
def session_spec_step (acc : Option String) (e : HEvent) : Option String :=
  match e with
  | .response true (some s) => some s
  | _ => acc

/-- Specification-side view: the session id carried by the last successful
response that had a Mcp-Session-Id header. -/
def lastSessionSid (evs : List HEvent) : Option String :=
  evs.foldl session_spec_step none

/-- C6 counterexample: after a successful response carrying session id "s",
closing the transport leaves the cached value in place; it is not cleared
on close. -/
theorem c6_counterexample :
    session_run none [.response true (some "s"), .closeEv] = some "s"
    ∧ some "s" ≠ (none : Option String) := by
  exact ⟨rfl, by decide⟩

/-- The spec-side fold from an arbitrary accumulator: the accumulator
survives exactly when no later caching response occurs. -/
lemma session_spec_absorb (evs : List HEvent) :
    ∀ acc, evs.foldl session_spec_step acc
      = Option.elim (evs.foldl session_spec_step none) acc some := by
  induction evs with
  | nil => intro acc; rfl
  | cons e evs ih =>
    intro acc
    cases e with
    | response ok sid =>
      cases ok with
      | true =>
        cases sid with
        | some s =>
          show evs.foldl session_spec_step (some s)
              = Option.elim (evs.foldl session_spec_step (some s)) acc some
          rw [ih (some s)]
          cases hfold : evs.foldl session_spec_step none <;> rfl
        | none => exact ih acc
      | false => exact ih acc
    | request => exact ih acc
    | notif => exact ih acc
    | closeEv => exact ih acc

/-- The transport cache after any trace from any starting state is the last
cached session id when one exists, else the starting state. -/
lemma session_run_eq_last (evs : List HEvent) :
    ∀ st, session_run st evs = Option.elim (lastSessionSid evs) st some := by
  induction evs with
  | nil => intro st; rfl
  | cons e evs ih =>
    intro st
    cases e with
    | response ok sid =>
      cases ok with
      | true =>
        cases sid with
        | some s =>
          rw [show session_run st (HEvent.response true (some s) :: evs)
              = session_run (some s) evs from rfl]
          rw [show lastSessionSid (HEvent.response true (some s) :: evs)
              = evs.foldl session_spec_step (some s) from rfl]
          rw [ih (some s), session_spec_absorb evs (some s)]
          unfold lastSessionSid
          cases hfold : evs.foldl session_spec_step none <;> rfl
        | none => exact ih st
      | false => exact ih st
    | request => exact ih st
    | notif => exact ih st
    | closeEv => exact ih st

/-- C6 (amended): after the first successful response carrying a
Mcp-Session-Id header the transport caches the value (a later such response
overwrites it), every subsequent request and notification attaches the
currently cached value (the cache is exactly the last such session id), and
no transport operation, including close, clears the cache. -/
theorem c6_session_cache :
    (∀ evs, session_run none evs = lastSessionSid evs)
    ∧ (∀ st, session_step st .closeEv = st)
    ∧ (∀ st, session_step st .request = st)
    ∧ (∀ st, session_step st .notif = st)
    ∧ (∀ st s, session_step st (.response true (some s)) = some s)
    ∧ (∀ st sid, session_step st (.response false sid) = st) := by
  refine ⟨?_, fun st => rfl, fun st => rfl, fun st => rfl,
    fun st s => rfl, fun st sid => rfl⟩
  intro evs
  rw [session_run_eq_last evs none]
  cases lastSessionSid evs <;> rfl

/-! ## C9 — Runtime.close error behaviour (src/runtime.rs lines 87-96) -/

/-- Model of the loop body of `Runtime::close`: each live connection is a
pair of its server name and the outcome its `close()` would return.  The
result is the list of names whose close ran and succeeded (in iteration
order) together with the overall outcome; the `?` operator stops the loop
at the first failing close. -/
def close_seq :
    List (String × Except McplugErr Unit) →
      List String × Except McplugErr Unit
  | [] => ([], .ok ())
  | (n, .ok _) :: rest =>
    let r := close_seq rest
    (n :: r.1, r.2)
  | (_, .error e) :: _ => ([], .error e)

/-- Model of `Runtime::close`: run the closes in iteration order; only when
every close succeeded is `conns.clear()` reached, otherwise the first error
is returned and the connection map is left as it was. -/
def runtime_close (conns : List (String × Except McplugErr Unit)) :
    Except McplugErr Unit × List (String × Except McplugErr Unit) :=
  match (close_seq conns).2 with
  | .error e => (.error e, conns)
  | .ok _ => (.ok (), [])

/-- When every close succeeds, all of them run and the result is ok. -/
lemma close_seq_all_ok (conns : List (String × Except McplugErr Unit))
    (h : ∀ x ∈ conns, x.2 = .ok ()) :
    close_seq conns = (conns.map Prod.fst, .ok ()) := by
  induction conns with
  | nil => rfl
  | cons x rest ih =>
    obtain ⟨n, r⟩ := x
    have hx : r = .ok () := h (n, r) (by simp)
    subst hx
    have := ih (fun y hy => h y (by simp [hy]))
    simp [close_seq, this]

/-- Up to the first failing close, exactly the preceding closes run. -/
lemma close_seq_first_error (pre : List (String × Except McplugErr Unit))
    (n : String) (e : McplugErr) (post : List (String × Except McplugErr Unit))
    (h : ∀ x ∈ pre, x.2 = .ok ()) :
    close_seq (pre ++ (n, .error e) :: post) = (pre.map Prod.fst, .error e) := by
  induction pre with
  | nil => rfl
  | cons x rest ih =>
    obtain ⟨m, r⟩ := x
    have hx : r = .ok () := h (m, r) (by simp)
    subst hx
    have := ih (fun y hy => h y (by simp [hy]))
    simp [close_seq, this]

/-- C9: `Runtime::close` is not atomic on error.  If every live transport
closes successfully, every transport is closed and the connection map is
cleared; if some close fails, the first error is returned immediately, the
transports after it are not closed (only those before it were), and the
connection map is left unchanged with all entries still cached. -/
theorem c9_runtime_close :
    (∀ conns : List (String × Except McplugErr Unit),
      (∀ x ∈ conns, x.2 = .ok ()) →
        runtime_close conns = (.ok (), [])
        ∧ (close_seq conns).1 = conns.map Prod.fst)
    ∧ (∀ (pre : List (String × Except McplugErr Unit)) (n : String)
        (e : McplugErr) (post : List (String × Except McplugErr Unit)),
      (∀ x ∈ pre, x.2 = .ok ()) →
        runtime_close (pre ++ (n, .error e) :: post)
            = (.error e, pre ++ (n, .error e) :: post)
        ∧ (close_seq (pre ++ (n, .error e) :: post)).1 = pre.map Prod.fst) := by
  constructor
  · intro conns h
    have hs := close_seq_all_ok conns h
    constructor
    · unfold runtime_close
      rw [hs]
    · rw [hs]
  · intro pre n e post h
    have hs := close_seq_first_error pre n e post h
    constructor
    · unfold runtime_close
      rw [hs]
    · rw [hs]

/-- Witness for `c9_runtime_close`: a two-entry map that closes cleanly,
and a map whose second entry fails to close. -/
theorem c9_witness :
    (∀ x ∈ [("a", Except.ok ()), ("b", Except.ok ())] ,
        x.2 = (Except.ok () : Except McplugErr Unit))
    ∧ runtime_close [("a", .ok ()), ("b", .ok ())] = (.ok (), [])
    ∧ runtime_close
        [("a", .ok ()), ("b", .error (.transportError "boom")), ("c", .ok ())]
        = (.error (.transportError "boom"),
            [("a", .ok ()), ("b", .error (.transportError "boom")),
              ("c", .ok ())])
    ∧ (close_seq
        [("a", .ok ()), ("b", .error (.transportError "boom")), ("c", .ok ())]).1
        = ["a"] := by
  refine ⟨?_, ?_, ?_, ?_⟩
  · intro x hx
    simp only [List.mem_cons, List.mem_singleton] at hx
    rcases hx with h | h | h
    · rw [h]
    · rw [h]
    · cases h
  · exact ((c9_runtime_close.1 [("a", .ok ()), ("b", .ok ())]
      (by
        intro x hx
        simp only [List.mem_cons, List.mem_singleton] at hx
        rcases hx with h | h | h
        · rw [h]
        · rw [h]
        · cases h))).1
  · exact ((c9_runtime_close.2 [("a", .ok ())] "b" (.transportError "boom")
      [("c", .ok ())]
      (by
        intro x hx
        simp only [List.mem_singleton] at hx
        rw [hx]))).1
  · exact ((c9_runtime_close.2 [("a", .ok ())] "b" (.transportError "boom")
      [("c", .ok ())]
      (by
        intro x hx
        simp only [List.mem_singleton] at hx
        rw [hx]))).2

/-! ## C10 — CallResult deserialization (src/types.rs lines 31-39,
src/transports/stdio.rs lines 278-300) -/

/-- Model of `ContentBlock` (src/types.rs): internally tagged by `type`
with lowercase variant names. -/
inductive ContentBlockM where
  | text (text : String) : ContentBlockM
  | image (data : String) (mime_type : String) : ContentBlockM
  | resource (uri : String) (text : String) : ContentBlockM
deriving Repr, BEq, DecidableEq

/-- Model of serde deserialization of one `ContentBlock` from JSON: the
`type` field selects the variant, the remaining fields must be strings;
unknown extra fields are ignored. -/
def parse_content_block (j : Json) : Except String ContentBlockM :=
  match j.getField "type" with
  | some (.str "text") =>
    match (j.getField "text").bind Json.asStr with
    | some t => .ok (.text t)
    | none => .error "invalid text block"
  | some (.str "image") =>
    match (j.getField "data").bind Json.asStr,
        (j.getField "mime_type").bind Json.asStr with
    | some d, some m => .ok (.image d m)
    | _, _ => .error "invalid image block"
  | some (.str "resource") =>
    match (j.getField "uri").bind Json.asStr,
        (j.getField "text").bind Json.asStr with
    | some u, some t => .ok (.resource u t)
    | _, _ => .error "invalid resource block"
  | _ => .error "unknown content block type"

/-- Model of serde deserialization of `Vec<ContentBlock>`. -/
def parse_content_list (j : Json) : Except String (List ContentBlockM) :=
  match j with
  | .arr xs => xs.mapM parse_content_block
  | _ => .error "content must be an array"

/-- Model of `CallResult` (src/types.rs lines 31-39). -/
structure CallResultM where
  content : List ContentBlockM
  is_error : Bool
  raw_response : Option Json
deriving Repr, BEq

/-- Model of serde deserialization of `CallResult`: `content` is required;
`isError` (serde rename) carries `#[serde(default)]`, so a missing field
yields `false`; `raw_response` carries `#[serde(skip)]`, so it is never
read from the wire and deserializes to `None`. -/
def parse_call_result (j : Json) : Except String CallResultM :=
  match j.getField "content" with
  | none => .error "missing field content"
  | some c =>
    match parse_content_list c with
    | .error e => .error e
    | .ok blocks =>
      match j.getField "isError" with
      | none => .ok ⟨blocks, false, none⟩
      | some (.bool b) => .ok ⟨blocks, b, none⟩
      | some _ => .error "isError must be a boolean"

/-- Model of the tail of `StdioTransport::call_tool`: parse the result as a
CallResult, then attach the full result JSON as `raw_response`. -/
def call_tool_attach (result : Json) : Except String CallResultM :=
  match parse_call_result result with
  | .ok cr => .ok { cr with raw_response := some result }
  | .error e => .error e

/-- C10: when a tools/call result omits `isError`, the parsed CallResult
has `is_error = false` (the field defaults rather than failing
deserialization); `raw_response` is never populated by deserialization and
is only set afterwards by the transport, to the full result JSON. -/
theorem c10_call_result :
    (∀ j c blocks, j.getField "isError" = none →
        j.getField "content" = some c → parse_content_list c = .ok blocks →
        parse_call_result j = .ok ⟨blocks, false, none⟩)
    ∧ (∀ j r, parse_call_result j = .ok r → r.raw_response = none)
    ∧ (∀ j r, call_tool_attach j = .ok r → r.raw_response = some j) := by
  refine ⟨?_, ?_, ?_⟩
  · intro j c blocks hie hc hp
    simp [parse_call_result, hie, hc, hp]
  · intro j r h
    unfold parse_call_result at h
    split at h
    · exact Except.noConfusion h
    · split at h
      · exact Except.noConfusion h
      · split at h
        · cases h
          rfl
        · cases h
          rfl
        · exact Except.noConfusion h
  · intro j r h
    unfold call_tool_attach at h
    split at h
    · cases h
      rfl
    · exact Except.noConfusion h

/-- Witness for `c10_call_result` at a concrete result JSON with no
`isError` field. -/
theorem c10_witness :
    (Json.obj [("content",
        Json.arr [Json.obj [("type", Json.str "text"),
          ("text", Json.str "hi")]])]).getField "isError" = none
    ∧ parse_call_result
        (Json.obj [("content",
          Json.arr [Json.obj [("type", Json.str "text"),
            ("text", Json.str "hi")]])])
        = .ok ⟨[.text "hi"], false, none⟩
    ∧ call_tool_attach
        (Json.obj [("content",
          Json.arr [Json.obj [("type", Json.str "text"),
            ("text", Json.str "hi")]])])
        = .ok ⟨[.text "hi"], false,
            some (Json.obj [("content",
              Json.arr [Json.obj [("type", Json.str "text"),
                ("text", Json.str "hi")]])])⟩
    ∧ CallResultM.raw_response ⟨[.text "hi"], false, none⟩ = none := by
  refine ⟨rfl, ?_, rfl, ?_⟩
  · exact c10_call_result.1
      (Json.obj [("content",
        Json.arr [Json.obj [("type", Json.str "text"),
          ("text", Json.str "hi")]])])
      (Json.arr [Json.obj [("type", Json.str "text"),
        ("text", Json.str "hi")]])
      [.text "hi"] rfl rfl rfl
  · exact c10_call_result.2.1
      (Json.obj [("content",
        Json.arr [Json.obj [("type", Json.str "text"),
          ("text", Json.str "hi")]])])
      ⟨[.text "hi"], false, none⟩
      (c10_call_result.1
        (Json.obj [("content",
          Json.arr [Json.obj [("type", Json.str "text"),
            ("text", Json.str "hi")]])])
        (Json.arr [Json.obj [("type", Json.str "text"),
          ("text", Json.str "hi")]])
        [.text "hi"] rfl rfl rfl)

/-! ## C4 — environment variable expansion (src/config/env.rs lines 13-105) -/

/-- Outcome of `expand_env_vars`: success, a ConfigError (at path `<env>`),
or a Rust panic (slicing the input with an out-of-range byte index). -/
inductive EnvOutcome where
  | ok (out : List Char) : EnvOutcome
  | err (detail : String) : EnvOutcome
  | panic : EnvOutcome
deriving Repr, BEq, DecidableEq

/-- The inner loop reading a `${...}` reference up to the closing brace:
returns the variable expression and the characters after the brace, or
`none` when the brace is unclosed. -/
def splitAtBrace : List Char → Option (List Char × List Char)
  | [] => none
  | c :: cs =>
    if c = '}' then some ([], cs)
    else
      match splitAtBrace cs with
      | some (v, rest) => some (c :: v, rest)
      | none => none

/-- First position of the two-character separator ":-" in a variable
expression (`var_expr.find(":-")`). -/
def findColonDash : List Char → Option Nat
  | ':' :: '-' :: _ => some 0
  | _ :: cs => (findColonDash cs).map (fun n => n + 1)
  | [] => none

/-- A character of a `$env:NAME` name: alphanumeric or underscore (the
model is ASCII; Rust uses `char::is_alphanumeric`). -/
def isEnvWordChar (c : Char) : Bool :=
  c.isAlphanum || c = '_'

/-- Model of the loop of `expand_env_vars` (src/config/env.rs).  `env` is
the process environment; `input` is the whole input string (kept because
the source indexes it with `input[result.len()..]`); the loop walks the
remaining characters, accumulating the output in `res`.  The `fuel`
argument only makes the recursion structural: every iteration consumes at
least one remaining character, so `input.length + 1` units always suffice.
Note the faithful quirk of the source: the `$env:` form is only recognised
when `input[result.len()..]` (the input sliced at the OUTPUT length) starts
with `"$env:"` as well, and that slice panics when `result.len()` exceeds
the input length. -/
def expandLoop (env : List Char → Option (List Char)) (input : List Char) :
    Nat → List Char → List Char → EnvOutcome
  | 0, _, _ => .panic
  | _ + 1, [], res => .ok res
  | fuel + 1, c :: cs, res =>
    if c = '$' then
      match cs with
      | '{' :: rest =>
        match splitAtBrace rest with
        | none => .err "unclosed variable reference"
        | some (varExpr, after) =>
          match findColonDash varExpr with
          | some p =>
            let name := varExpr.take p
            let fallback := varExpr.drop (p + 2)
            match env name with
            | some v =>
              if v ≠ [] then expandLoop env input fuel after (res ++ v)
              else expandLoop env input fuel after (res ++ fallback)
            | none => expandLoop env input fuel after (res ++ fallback)
          | none =>
            match env varExpr with
            | some v => expandLoop env input fuel after (res ++ v)
            | none => .err "environment variable not set"
      | _ =>
        if input.length < res.length then .panic
        else if ((input.drop res.length).take 5 = ['$', 'e', 'n', 'v', ':'])
            && (cs.take 4 = ['e', 'n', 'v', ':']) then
          let afterTag := cs.drop 4
          let name := afterTag.takeWhile isEnvWordChar
          let rest2 := afterTag.dropWhile isEnvWordChar
          if name = [] then .err "empty variable name"
          else
            match env name with
            | some v => expandLoop env input fuel rest2 (res ++ v)
            | none => .err "environment variable not set"
        else expandLoop env input fuel cs (res ++ ['$'])
    else expandLoop env input fuel cs (res ++ [c])

/-- Model of `expand_env_vars` over an environment oracle. -/
def expand_env_vars (env : List Char → Option (List Char))
    (input : List Char) : EnvOutcome :=
  expandLoop env input (input.length + 1) input []

/-- Environment with X=ab and Y=z. -/
def envXab : List Char → Option (List Char) := fun n =>
  if n = ['X'] then some ['a', 'b']
  else if n = ['Y'] then some ['z'] else none

/-- Environment with X=abcd (same length as the text of the reference) and
Y=z. -/
def envXabcd : List Char → Option (List Char) := fun n =>
  if n = ['X'] then some ['a', 'b', 'c', 'd']
  else if n = ['Y'] then some ['z'] else none

/-- C4: evaluating `expand_env_vars` on the failing input.  On
`${X}$env:Y` with X=ab and Y=z (Y set), the `$env:Y` reference is NOT
expanded — the code checks `input[result.len()..]`, indexing the input
with the output's length, which is off once the earlier `${X}` expansion
changed the length — and the output is `ab$env:Y`.  With X=abcd (value
length equal to the reference text `${X}`) the coincidence of lengths
makes the same reference expand to `abcdz`. -/
theorem c4_env_after_expansion :
    expand_env_vars envXab
        ['$', '{', 'X', '}', '$', 'e', 'n', 'v', ':', 'Y']
      = .ok ['a', 'b', '$', 'e', 'n', 'v', ':', 'Y']
    ∧ envXab ['Y'] = some ['z']
    ∧ expand_env_vars envXabcd
        ['$', '{', 'X', '}', '$', 'e', 'n', 'v', ':', 'Y']
      = .ok ['a', 'b', 'c', 'd', 'z'] := by
  refine ⟨?_, ?_, ?_⟩ <;> rfl

/-! ## C7 — JSONC comment stripping (src/config/loader.rs lines 11-77) -/

/-- Control points of the `strip_jsonc_comments` loop: `normal` is the top
of the loop outside strings and comments; `instr` is `in_string`; `escape`
is `escape_next`; `slash` is the peek after reading `/` in normal mode;
`lineComment` is the line-comment skip loop; `blockComment sp` is the
block-comment skip loop with `sp` recording whether the previous character
was `*`. -/
inductive JsoncState where
  | normal : JsoncState
  | instr : JsoncState
  | escape : JsoncState
  | slash : JsoncState
  | lineComment : JsoncState
  | blockComment (sp : Bool) : JsoncState
deriving Repr, BEq, DecidableEq

/-- One character step of `strip_jsonc_comments`: next state and emitted
output.  In `slash` state a character other than `/` or `*` makes the
source push the pending `/` and then process that character in normal mode
(which is inlined here: it cannot be another `/` in that branch). -/
def jstep : JsoncState → Char → JsoncState × List Char
  | .normal, c =>
    if c = '"' then (.instr, [c])
    else if c = '/' then (.slash, [])
    else (.normal, [c])
  | .instr, c =>
    if c = '\\' then (.escape, [c])
    else if c = '"' then (.normal, [c])
    else (.instr, [c])
  | .escape, c => (.instr, [c])
  | .slash, c =>
    if c = '/' then (.lineComment, [])
    else if c = '*' then (.blockComment false, [])
    else if c = '"' then (.instr, ['/', c])
    else (.normal, ['/', c])
  | .lineComment, c =>
    if c = '\n' then (.normal, ['\n']) else (.lineComment, [])
  | .blockComment sp, c =>
    if sp && c = '/' then (.normal, [])
    else (.blockComment (c = '*'), if c = '\n' then ['\n'] else [])

/-- Run the stripper over a character list, returning the final state and
the emitted output. -/
def jrun : JsoncState → List Char → JsoncState × List Char
  | st, [] => (st, [])
  | st, c :: cs =>
    let s2 := jstep st c
    let s3 := jrun s2.1 cs
    (s3.1, s2.2 ++ s3.2)

/-- End-of-input flush: a pending `/` whose peek saw the end of input is
pushed by the source's catch-all arm. -/
def jfinal : JsoncState → List Char
  | .slash => ['/']
  | _ => []

/-- Model of `strip_jsonc_comments` on a character list. -/
def strip_jsonc_comments (s : List Char) : List Char :=
  (jrun .normal s).2 ++ jfinal (jrun .normal s).1

/-- A well-formed interior of a double-quoted JSON string literal: every
backslash escapes the following character and no unescaped `"` occurs.  A
trailing lone backslash would escape the closing quote, so it is excluded. -/
def strInner : List Char → Bool
  | [] => true
  | '\\' :: [] => false
  | '\\' :: _ :: cs => strInner cs
  | c :: cs => decide (c ≠ '"') && strInner cs

/-- No adjacent `*/` pair occurs inside the list. -/
def noStarSlash : List Char → Bool
  | [] => true
  | [_] => true
  | c :: d :: cs => !(c = '*' && d = '/') && noStarSlash (d :: cs)

lemma jstep_count (st : JsoncState) (c : Char) :
    ((jstep st c).2).count '\n' = [c].count '\n' := by
  cases st with
  | normal =>
    by_cases h1 : c = '"' <;> by_cases h2 : c = '/' <;>
      simp_all [jstep, List.count_cons]
  | instr =>
    by_cases h1 : c = '\\' <;> by_cases h2 : c = '"' <;>
      simp_all [jstep, List.count_cons]
  | escape => simp [jstep, List.count_cons]
  | slash =>
    by_cases h1 : c = '/' <;> by_cases h2 : c = '*' <;>
      by_cases h3 : c = '"' <;> simp_all [jstep, List.count_cons]
  | lineComment =>
    by_cases h1 : c = '\n' <;> simp_all [jstep, List.count_cons]
  | blockComment sp =>
    cases sp <;> by_cases h2 : c = '/' <;> by_cases h3 : c = '\n' <;>
      simp_all [jstep, List.count_cons]

lemma jrun_count (s : List Char) :
    ∀ st, ((jrun st s).2).count '\n' = s.count '\n' := by
  induction s with
  | nil => intro st; rfl
  | cons c cs ih =>
    intro st
    show ((jstep st c).2 ++ (jrun (jstep st c).1 cs).2).count '\n' = _
    rw [List.count_append, jstep_count, ih]
    simp [List.count_cons]
    omega

lemma jfinal_count (st : JsoncState) : (jfinal st).count '\n' = 0 := by
  cases st <;> simp [jfinal, List.count_cons]

lemma jrun_append (a : List Char) :
    ∀ b st, jrun st (a ++ b)
      = ((jrun (jrun st a).1 b).1, (jrun st a).2 ++ (jrun (jrun st a).1 b).2) := by
  induction a with
  | nil => intro b st; rfl
  | cons c cs ih =>
    intro b st
    show ((jrun (jstep st c).1 (cs ++ b)).1,
        (jstep st c).2 ++ (jrun (jstep st c).1 (cs ++ b)).2) = _
    rw [ih b (jstep st c).1]
    show (_, (jstep st c).2 ++ ((jrun (jstep st c).1 cs).2 ++ _)) = _
    simp [jrun]

lemma strInner_cons (c : Char) (cs : List Char) (hc : c ≠ '\\') :
    strInner (c :: cs) = (decide (c ≠ '"') && strInner cs) := by
  rw [strInner.eq_def]
  split
  · rename_i heq
    cases heq
  · rename_i heq
    injection heq with h1 h2
    exact absurd h1 hc
  · rename_i head cs1 heq
    injection heq with h1 h2
    exact absurd h1 hc
  · rename_i c1 cs1 hh1 hh2 heq
    injection heq with h1 h2
    subst h1
    subst h2
    rfl

/-- Inside a string, a well-formed literal interior plus its closing quote
passes through verbatim and returns to normal mode. -/
lemma jrun_instr_pass (body : List Char) :
    ∀ rest, strInner body = true →
      jrun .instr (body ++ '"' :: rest)
        = ((jrun .normal rest).1, body ++ '"' :: (jrun .normal rest).2) := by
  induction body using strInner.induct with
  | case1 =>
    intro rest _
    show ((jrun (jstep .instr '"').1 rest).1,
      (jstep .instr '"').2 ++ (jrun (jstep .instr '"').1 rest).2) = _
    simp [jstep]
  | case2 =>
    intro rest h
    simp [strInner] at h
  | case3 c cs ih =>
    intro rest h
    have hb : strInner cs = true := by
      simpa [strInner] using h
    show ((jrun (jstep .instr '\\').1 (c :: cs ++ '"' :: rest)).1,
      (jstep .instr '\\').2 ++ _) = _
    simp only [jstep, if_pos rfl]
    show ((jrun (jstep .escape c).1 (cs ++ '"' :: rest)).1,
      '\\' :: ((jstep .escape c).2 ++ (jrun (jstep .escape c).1 (cs ++ '"' :: rest)).2)) = _
    simp only [jstep]
    rw [show jrun JsoncState.instr (cs ++ '"' :: rest)
        = ((jrun .normal rest).1, cs ++ '"' :: (jrun .normal rest).2) from ih rest hb]
    simp
  | case4 c cs hne1 hne2 ih =>
    intro rest h
    have hc : c ≠ '\\' := by
      intro hc
      cases cs with
      | nil => exact hne1 hc rfl
      | cons d ds => exact hne2 d ds hc rfl
    have h' : (decide (c ≠ '"') && strInner cs) = true := by
      rw [← strInner_cons c cs hc]
      exact h
    have hq : c ≠ '"' := by
      intro hcq
      simp [hcq] at h'
    have hb : strInner cs = true := by
      simp at h'
      exact h'.2
    show ((jrun (jstep .instr c).1 (cs ++ '"' :: rest)).1,
      (jstep .instr c).2 ++ (jrun (jstep .instr c).1 (cs ++ '"' :: rest)).2) = _
    rw [show jstep .instr c = (.instr, [c]) by simp [jstep, hc, hq]]
    rw [ih rest hb]
    simp

/-- Inside a line comment, characters up to the newline are dropped and the
newline itself is emitted, returning to normal mode. -/
lemma jrun_line_skip (body : List Char) :
    ∀ rest, '\n' ∉ body →
      jrun .lineComment (body ++ '\n' :: rest)
        = ((jrun .normal rest).1, '\n' :: (jrun .normal rest).2) := by
  induction body with
  | nil =>
    intro rest _
    show ((jrun (jstep .lineComment '\n').1 rest).1,
      (jstep .lineComment '\n').2 ++ (jrun (jstep .lineComment '\n').1 rest).2) = _
    simp [jstep]
  | cons c cs ih =>
    intro rest h
    have hc : c ≠ '\n' := fun hh => h (by simp [hh])
    have hb : '\n' ∉ cs := fun hh => h (by simp [hh])
    show ((jrun (jstep .lineComment c).1 (cs ++ '\n' :: rest)).1,
      (jstep .lineComment c).2
        ++ (jrun (jstep .lineComment c).1 (cs ++ '\n' :: rest)).2) = _
    rw [show jstep .lineComment c = (.lineComment, []) by simp [jstep, hc]]
    rw [ih rest hb]
    simp

/-- Inside a block comment with no premature `*/`, everything up to the
closing `*/` is dropped except newlines, returning to normal mode. -/
lemma jrun_block_skip (body : List Char) :
    ∀ (sp : Bool) rest, noStarSlash body = true →
      (sp = true → body.head? ≠ some '/') →
      jrun (.blockComment sp) (body ++ '*' :: '/' :: rest)
        = ((jrun .normal rest).1,
            body.filter (fun c => c = '\n') ++ (jrun .normal rest).2) := by
  induction body with
  | nil =>
    intro sp rest _ _
    show ((jrun (jstep (.blockComment sp) '*').1 ('/' :: rest)).1,
      (jstep (.blockComment sp) '*').2
        ++ (jrun (jstep (.blockComment sp) '*').1 ('/' :: rest)).2) = _
    rw [show jstep (.blockComment sp) '*' = (.blockComment true, []) by
      cases sp <;> simp [jstep]]
    show ((jrun (jstep (.blockComment true) '/').1 rest).1,
      [] ++ ((jstep (.blockComment true) '/').2
        ++ (jrun (jstep (.blockComment true) '/').1 rest).2)) = _
    rw [show jstep (.blockComment true) '/' = (.normal, []) by simp [jstep]]
    simp
  | cons c cs ih =>
    intro sp rest h hsp
    have hnb : ¬(sp = true ∧ c = '/') := by
      rintro ⟨h1, h2⟩
      exact hsp h1 (by simp [h2])
    have hstep : jstep (.blockComment sp) c
        = (.blockComment (c = '*'), if c = '\n' then ['\n'] else []) := by
      cases sp with
      | true =>
        have hc : c ≠ '/' := fun hh => hnb ⟨rfl, hh⟩
        simp [jstep, hc]
      | false => simp [jstep]
    have hcs : noStarSlash cs = true := by
      cases cs with
      | nil => rfl
      | cons d ds =>
        simp only [noStarSlash, Bool.and_eq_true] at h
        exact h.2
    have hhead : (decide (c = '*')) = true → cs.head? ≠ some '/' := by
      intro hc hh
      cases cs with
      | nil => simp at hh
      | cons d ds =>
        simp only [List.head?_cons, Option.some.injEq] at hh
        simp only [decide_eq_true_eq] at hc
        simp only [noStarSlash, hc, hh, Bool.and_eq_true] at h
        simp at h
    show ((jrun (jstep (.blockComment sp) c).1 (cs ++ '*' :: '/' :: rest)).1,
      (jstep (.blockComment sp) c).2
        ++ (jrun (jstep (.blockComment sp) c).1 (cs ++ '*' :: '/' :: rest)).2) = _
    rw [hstep]
    rw [ih (decide (c = '*')) rest hcs hhead]
    by_cases hc : c = '\n' <;> simp [hc]

/-- C7: `strip_jsonc_comments` preserves every newline (the output has the
same `\n` count as the input for every input); from normal mode, a
well-formed double-quoted string literal passes through byte-for-byte; a
`//` line comment is removed up to (and excluding) its terminating newline,
which is kept; a `/* */` block comment is removed except for the newlines
it contains. -/
theorem c7_strip_jsonc :
    (∀ s : List Char,
        (strip_jsonc_comments s).count '\n' = s.count '\n')
    ∧ (∀ pre body rest,
        (jrun .normal pre).1 = .normal → strInner body = true →
        strip_jsonc_comments (pre ++ '"' :: body ++ '"' :: rest)
          = (jrun .normal pre).2
            ++ '"' :: body ++ '"' :: strip_jsonc_comments rest)
    ∧ (∀ pre body rest,
        (jrun .normal pre).1 = .normal → '\n' ∉ body →
        strip_jsonc_comments (pre ++ '/' :: '/' :: body ++ '\n' :: rest)
          = (jrun .normal pre).2 ++ '\n' :: strip_jsonc_comments rest)
    ∧ (∀ pre body rest,
        (jrun .normal pre).1 = .normal → noStarSlash body = true →
        strip_jsonc_comments (pre ++ '/' :: '*' :: body ++ '*' :: '/' :: rest)
          = (jrun .normal pre).2
            ++ body.filter (fun c => c = '\n') ++ strip_jsonc_comments rest) := by
  refine ⟨?_, ?_, ?_, ?_⟩
  · intro s
    unfold strip_jsonc_comments
    rw [List.count_append, jrun_count s .normal, jfinal_count]
    omega
  · intro pre body rest hpre hbody
    unfold strip_jsonc_comments
    simp only [List.cons_append, List.append_assoc]
    rw [jrun_append pre ('"' :: (body ++ '"' :: rest)) .normal, hpre]
    rw [show jrun JsoncState.normal ('"' :: (body ++ '"' :: rest))
        = ((jrun (jstep .normal '"').1 (body ++ '"' :: rest)).1,
          (jstep .normal '"').2
            ++ (jrun (jstep .normal '"').1 (body ++ '"' :: rest)).2) from rfl]
    rw [show jstep JsoncState.normal '"' = (.instr, ['"']) by simp [jstep]]
    rw [jrun_instr_pass body rest hbody]
    simp
  · intro pre body rest hpre hbody
    unfold strip_jsonc_comments
    simp only [List.cons_append, List.append_assoc]
    rw [jrun_append pre ('/' :: ('/' :: (body ++ '\n' :: rest))) .normal,
      hpre]
    rw [show jrun JsoncState.normal ('/' :: ('/' :: (body ++ '\n' :: rest)))
        = ((jrun (jstep .slash '/').1 (body ++ '\n' :: rest)).1,
          (jstep .normal '/').2 ++ ((jstep .slash '/').2
            ++ (jrun (jstep .slash '/').1 (body ++ '\n' :: rest)).2)) from rfl]
    rw [show jstep JsoncState.normal '/' = (.slash, []) by simp [jstep]]
    rw [show jstep JsoncState.slash '/' = (.lineComment, []) by simp [jstep]]
    rw [jrun_line_skip body rest hbody]
    simp
  · intro pre body rest hpre hbody
    unfold strip_jsonc_comments
    simp only [List.cons_append, List.append_assoc]
    rw [jrun_append pre ('/' :: ('*' :: (body ++ '*' :: '/' :: rest)))
      .normal, hpre]
    rw [show jrun JsoncState.normal
          ('/' :: ('*' :: (body ++ '*' :: '/' :: rest)))
        = ((jrun (jstep .slash '*').1 (body ++ '*' :: '/' :: rest)).1,
          (jstep .normal '/').2 ++ ((jstep .slash '*').2
            ++ (jrun (jstep .slash '*').1 (body ++ '*' :: '/' :: rest)).2))
        from rfl]
    rw [show jstep JsoncState.normal '/' = (.slash, []) by simp [jstep]]
    rw [show jstep JsoncState.slash '*' = (.blockComment false, []) by
      simp [jstep]]
    rw [jrun_block_skip body false rest hbody (by intro h; cases h)]
    simp

/-- Witness for `c7_strip_jsonc` at concrete inputs: a quoted literal, a
line comment, and a block comment (with empty surrounding context). -/
theorem c7_witness :
    (jrun .normal ([] : List Char)).1 = .normal
    ∧ strInner ['a'] = true
    ∧ ('\n' ∉ ['b'])
    ∧ noStarSlash ['c'] = true
    ∧ strip_jsonc_comments ['"', 'a', '"'] = ['"', 'a', '"']
    ∧ strip_jsonc_comments ['/', '/', 'b', '\n'] = ['\n']
    ∧ strip_jsonc_comments ['/', '*', 'c', '*', '/'] = [] := by
  refine ⟨rfl, by decide, by decide, by decide, ?_, ?_, ?_⟩
  · exact (c7_strip_jsonc.2.1 [] ['a'] [] rfl (by decide)).trans (by decide)
  · exact (c7_strip_jsonc.2.2.1 [] ['b'] [] rfl (by decide)).trans (by decide)
  · exact (c7_strip_jsonc.2.2.2 [] ['c'] [] rfl (by decide)).trans (by decide)

/-! ## C8 — tool name suggestion (src/args.rs lines 94-115) -/

/-- Levenshtein edit distance with unit costs (model of
`strsim::levenshtein`). -/
def levDist : List Char → List Char → Nat
  | [], bs => bs.length
  | a :: as, [] => (a :: as).length
  | a :: as, b :: bs =>
    if a = b then levDist as bs
    else 1 + min (levDist as bs)
        (min (levDist (a :: as) bs) (levDist as (b :: bs)))
termination_by x y => x.length + y.length
decreasing_by all_goals simp <;> omega

/-- `usize::MAX`, the initial best distance in `suggest_tool`. -/
def usizeMax : Nat := 2 ^ 64 - 1

/-- The loop of `suggest_tool` over the known tools, carrying
`(best_dist, best_tool, ambiguous)`. -/
def suggestLoop (input : String) :
    List String → Nat → Option String → Bool → Nat × Option String × Bool
  | [], best, bt, amb => (best, bt, amb)
  | tool :: ts, best, bt, amb =>
    let dist := levDist input.data tool.data
    if dist < best then suggestLoop input ts dist (some tool) false
    else if dist = best then suggestLoop input ts best bt true
    else suggestLoop input ts best bt amb

/-- Model of `suggest_tool` (src/args.rs): the loop followed by
`best_dist <= 2 && !ambiguous`. -/
def suggest_tool (input : String) (known_tools : List String) :
    Option String :=
  let r := suggestLoop input known_tools usizeMax none false
  if r.1 ≤ 2 ∧ r.2.2 = false then r.2.1 else none

/-- The running minimum distance, as folded by the loop. -/
def distFold (input : String) (ts : List String) (b : Nat) : Nat :=
  ts.foldl
    (fun x u => if levDist input.data u.data < x
      then levDist input.data u.data else x) b

lemma distFold_nil (input : String) (b : Nat) : distFold input [] b = b := rfl

lemma distFold_cons (input : String) (u : String) (ts : List String)
    (b : Nat) :
    distFold input (u :: ts) b
      = distFold input ts
          (if levDist input.data u.data < b
            then levDist input.data u.data else b) := rfl

lemma distFold_le_init (input : String) (ts : List String) :
    ∀ b, distFold input ts b ≤ b := by
  induction ts with
  | nil => intro b; exact Nat.le_refl b
  | cons u ts ih =>
    intro b
    rw [distFold_cons]
    by_cases h : levDist input.data u.data < b
    · rw [if_pos h]
      exact le_trans (ih _) (Nat.le_of_lt h)
    · rw [if_neg h]
      exact ih b

lemma distFold_le_elem (input : String) (ts : List String) :
    ∀ b, ∀ u ∈ ts, distFold input ts b ≤ levDist input.data u.data := by
  induction ts with
  | nil => intro b u hu; cases hu
  | cons v ts ih =>
    intro b u hu
    rw [distFold_cons]
    rcases List.mem_cons.mp hu with h | h
    · subst h
      by_cases hlt : levDist input.data u.data < b
      · rw [if_pos hlt]
        exact distFold_le_init input ts _
      · rw [if_neg hlt]
        exact le_trans (distFold_le_init input ts b) (Nat.le_of_not_lt hlt)
    · exact ih _ u h

lemma distFold_attained (input : String) (ts : List String) :
    ∀ b, distFold input ts b = b
      ∨ ∃ u ∈ ts, distFold input ts b = levDist input.data u.data := by
  induction ts with
  | nil => intro b; exact Or.inl rfl
  | cons v ts ih =>
    intro b
    rw [distFold_cons]
    by_cases hlt : levDist input.data v.data < b
    · rw [if_pos hlt]
      rcases ih (levDist input.data v.data) with h | ⟨u, hu, h⟩
      · exact Or.inr ⟨v, by simp, h⟩
      · exact Or.inr ⟨u, by simp [hu], h⟩
    · rw [if_neg hlt]
      rcases ih b with h | ⟨u, hu, h⟩
      · exact Or.inl h
      · exact Or.inr ⟨u, by simp [hu], h⟩

/-- Full characterization of the suggest loop: the final best distance is
the running minimum, the final best tool is the first tool attaining it
(when it improved on the initial best), and the ambiguity flag records a
tie at the final best distance. -/
lemma suggestLoop_char (input : String) (ts : List String) :
    ∀ b bt amb, suggestLoop input ts b bt amb
      = (distFold input ts b,
         if distFold input ts b < b
           then ts.find?
             (fun u => levDist input.data u.data = distFold input ts b)
           else bt,
         if distFold input ts b < b
           then decide (2 ≤ ts.countP
               (fun u => levDist input.data u.data = distFold input ts b))
           else (amb || decide (1 ≤ ts.countP
               (fun u => levDist input.data u.data = b)))) := by
  induction ts with
  | nil =>
    intro b bt amb
    simp [suggestLoop, distFold_nil]
  | cons v ts ih =>
    intro b bt amb
    have hM : distFold input (v :: ts) b
        = distFold input ts
            (if levDist input.data v.data < b
              then levDist input.data v.data else b) := distFold_cons ..
    by_cases h1 : levDist input.data v.data < b
    · have hMd : distFold input (v :: ts) b
          = distFold input ts (levDist input.data v.data) := by
        rw [hM, if_pos h1]
      have hLHS : suggestLoop input (v :: ts) b bt amb
          = suggestLoop input ts (levDist input.data v.data) (some v) false := by
        simp [suggestLoop, h1]
      rw [hLHS, ih (levDist input.data v.data) (some v) false, hMd]
      have hFle : distFold input ts (levDist input.data v.data)
          ≤ levDist input.data v.data := distFold_le_init ..
      have hFb : distFold input ts (levDist input.data v.data) < b :=
        lt_of_le_of_lt hFle h1
      rw [if_pos hFb, if_pos hFb]
      by_cases hF : distFold input ts (levDist input.data v.data)
          < levDist input.data v.data
      · have hval : decide (levDist input.data v.data
            = distFold input ts (levDist input.data v.data)) = false := by
          simp only [decide_eq_false_iff_not]
          omega
        rw [if_pos hF, if_pos hF, List.find?_cons, List.countP_cons]
        simp only [hval]
        simp
      · have hFeq : distFold input ts (levDist input.data v.data)
            = levDist input.data v.data :=
          le_antisymm hFle (Nat.le_of_not_lt hF)
        have hval : decide (levDist input.data v.data
            = distFold input ts (levDist input.data v.data)) = true := by
          simp only [decide_eq_true_eq]
          omega
        rw [if_neg hF, if_neg hF, List.find?_cons, List.countP_cons]
        simp only [hval]
        refine congrArg _ (congrArg _ ?_)
        rw [Bool.false_or, hFeq]
        rw [decide_eq_decide]
        simp only [if_true]
        omega
    · have hMd : distFold input (v :: ts) b = distFold input ts b := by
        rw [hM, if_neg h1]
      have hdb : b ≤ levDist input.data v.data := Nat.le_of_not_lt h1
      by_cases h2 : levDist input.data v.data = b
      · have hLHS : suggestLoop input (v :: ts) b bt amb
            = suggestLoop input ts b bt true := by
          simp [suggestLoop, h1, h2]
        rw [hLHS, ih b bt true, hMd]
        by_cases hF : distFold input ts b < b
        · have hval : decide (levDist input.data v.data
              = distFold input ts b) = false := by
            simp only [decide_eq_false_iff_not]
            omega
          rw [if_pos hF, if_pos hF, if_pos hF, if_pos hF,
            List.find?_cons, List.countP_cons]
          simp only [hval]
          simp
        · have hval : decide (levDist input.data v.data = b) = true := by
            simp only [decide_eq_true_eq]
            exact h2
          rw [if_neg hF, if_neg hF, if_neg hF, if_neg hF, List.countP_cons]
          simp only [hval]
          refine congrArg _ (congrArg _ ?_)
          have h1c : (1 ≤ List.countP
              (fun u => decide (levDist input.data u.data = b)) ts + 1) := by
            omega
          simp [h1c]
      · have hgt : b < levDist input.data v.data :=
          lt_of_le_of_ne hdb (fun hh => h2 hh.symm)
        have hLHS : suggestLoop input (v :: ts) b bt amb
            = suggestLoop input ts b bt amb := by
          simp [suggestLoop, h1, h2]
        rw [hLHS, ih b bt amb, hMd]
        by_cases hF : distFold input ts b < b
        · have hval : decide (levDist input.data v.data
              = distFold input ts b) = false := by
            simp only [decide_eq_false_iff_not]
            omega
          rw [if_pos hF, if_pos hF, if_pos hF, if_pos hF,
            List.find?_cons, List.countP_cons]
          simp only [hval]
          simp
        · have hval : decide (levDist input.data v.data = b) = false := by
            simp only [decide_eq_false_iff_not]
            omega
          rw [if_neg hF, if_neg hF, if_neg hF, if_neg hF, List.countP_cons]
          simp only [hval]
          simp

/-- `find?` returns the unique element satisfying the predicate. -/
lemma find?_of_unique {α : Type} {p : α → Bool} :
    ∀ (l : List α) (a : α), a ∈ l → p a = true →
      (∀ x ∈ l, p x = true → x = a) → l.find? p = some a := by
  intro l
  induction l with
  | nil => intro a ha; cases ha
  | cons b l ih =>
    intro a ha hpa huniq
    by_cases hpb : p b = true
    · have hb : b = a := huniq b (by simp) hpb
      rw [List.find?_cons, hpb]
      rw [hb]
    · have hab : a ≠ b := fun hh => hpb (hh ▸ hpa)
      have ha' : a ∈ l := by
        rcases List.mem_cons.mp ha with h | h
        · exact absurd h hab
        · exact h
      rw [List.find?_cons]
      rw [show p b = false from Bool.eq_false_iff.mpr hpb]
      exact ih a ha' hpa (fun x hx hpx => huniq x (by simp [hx]) hpx)

/-- C8: `suggest_tool` returns `some t` if and only if `t` is the unique
candidate (counting list entries) attaining the minimum Levenshtein
distance to the input and that minimum is at most 2; in particular it
returns `none` on ties at the minimum, when nothing is within distance 2,
and for an empty candidate list. -/
theorem c8_suggest_tool (input t : String) (tools : List String) :
    suggest_tool input tools = some t
      ↔ (t ∈ tools ∧ levDist input.data t.data ≤ 2
          ∧ tools.countP
              (fun u => levDist input.data u.data
                ≤ levDist input.data t.data) = 1) := by
  have husize : (2 : Nat) < usizeMax := by
    unfold usizeMax
    norm_num
  have hMle : ∀ u ∈ tools,
      distFold input tools usizeMax ≤ levDist input.data u.data :=
    fun u hu => distFold_le_elem input tools usizeMax u hu
  unfold suggest_tool
  rw [suggestLoop_char input tools usizeMax none false]
  constructor
  · intro h
    by_cases hcond : distFold input tools usizeMax ≤ 2
        ∧ (if distFold input tools usizeMax < usizeMax
            then decide (2 ≤ tools.countP
                (fun u => levDist input.data u.data
                  = distFold input tools usizeMax))
            else (false || decide (1 ≤ tools.countP
                (fun u => levDist input.data u.data = usizeMax)))) = false
    · rw [if_pos hcond] at h
      obtain ⟨hM2, hA⟩ := hcond
      have hMmax : distFold input tools usizeMax < usizeMax :=
        lt_of_le_of_lt hM2 husize
      rw [if_pos hMmax] at h hA
      have hmem : t ∈ tools := List.mem_of_find?_eq_some h
      have hdist : levDist input.data t.data
          = distFold input tools usizeMax := by
        have := List.find?_some h
        simpa using this
      have hcnt1 : tools.countP
          (fun u => levDist input.data u.data
            = distFold input tools usizeMax) = 1 := by
        have hle1 : tools.countP
            (fun u => levDist input.data u.data
              = distFold input tools usizeMax) ≤ 1 := by
          by_contra hgt
          have : decide (2 ≤ tools.countP
              (fun u => levDist input.data u.data
                = distFold input tools usizeMax)) = true := by
            simp only [decide_eq_true_eq]
            omega
          rw [this] at hA
          cases hA
        have hpos : 0 < tools.countP
            (fun u => levDist input.data u.data
              = distFold input tools usizeMax) :=
          List.countP_pos_iff.mpr ⟨t, hmem, by simp [hdist]⟩
        omega
      refine ⟨hmem, hdist ▸ hM2, ?_⟩
      rw [List.countP_congr (q := fun u => levDist input.data u.data
          = distFold input tools usizeMax) ?_]
      · exact hcnt1
      · intro u hu
        simp only [decide_eq_true_eq]
        have := hMle u hu
        rw [hdist]
        omega
    · rw [if_neg hcond] at h
      cases h
  · rintro ⟨hmem, hle, hcnt⟩
    have hpt : decide (levDist input.data t.data
        ≤ levDist input.data t.data) = true := by simp
    have hfilter : tools.filter
        (fun u => levDist input.data u.data ≤ levDist input.data t.data)
          = [t] := by
      have hlen : (tools.filter
          (fun u => levDist input.data u.data
            ≤ levDist input.data t.data)).length = 1 := by
        rw [← List.countP_eq_length_filter]
        exact hcnt
      obtain ⟨a, hafilter⟩ := List.length_eq_one.mp hlen
      have htf : t ∈ tools.filter
          (fun u => levDist input.data u.data
            ≤ levDist input.data t.data) :=
        List.mem_filter.mpr ⟨hmem, hpt⟩
      rw [hafilter] at htf
      have : t = a := by simpa using htf
      rw [hafilter, this]
    have hkey : ∀ u ∈ tools,
        levDist input.data u.data ≤ levDist input.data t.data → u = t := by
      intro u hu hud
      have : u ∈ tools.filter
          (fun u => levDist input.data u.data
            ≤ levDist input.data t.data) :=
        List.mem_filter.mpr ⟨hu, by simp [hud]⟩
      rw [hfilter] at this
      simpa using this
    have hMt : distFold input tools usizeMax = levDist input.data t.data := by
      have h1 : distFold input tools usizeMax ≤ levDist input.data t.data :=
        hMle t hmem
      rcases distFold_attained input tools usizeMax with h | ⟨u, hu, h⟩
      · exfalso
        rw [h] at h1
        omega
      · have hud : levDist input.data u.data ≤ levDist input.data t.data := by
          rw [← h]
          exact h1
        have := hkey u hu hud
        subst this
        exact h
    have hM2 : distFold input tools usizeMax ≤ 2 := by
      rw [hMt]
      exact hle
    have hMmax : distFold input tools usizeMax < usizeMax :=
      lt_of_le_of_lt hM2 husize
    have hcntM : tools.countP
        (fun u => levDist input.data u.data
          = distFold input tools usizeMax) = 1 := by
      rw [List.countP_congr (q := fun u => levDist input.data u.data
          ≤ levDist input.data t.data) ?_]
      · exact hcnt
      · intro u hu
        simp only [decide_eq_true_eq]
        constructor
        · intro hh
          rw [hh, hMt]
        · intro hh
          have := hkey u hu hh
          subst this
          rw [hMt]
    have hA : (if distFold input tools usizeMax < usizeMax
        then decide (2 ≤ tools.countP
            (fun u => levDist input.data u.data
              = distFold input tools usizeMax))
        else (false || decide (1 ≤ tools.countP
            (fun u => levDist input.data u.data = usizeMax)))) = false := by
      rw [if_pos hMmax, hcntM]
      simp
    rw [if_pos ⟨hM2, hA⟩, if_pos hMmax]
    apply find?_of_unique tools t hmem (by simp [hMt])
    intro x hx hpx
    have hxd : levDist input.data x.data = distFold input tools usizeMax := by
      simpa using hpx
    exact hkey x hx (by rw [hxd, hMt])

/-! ## C3 — CLI argument parsing and value coercion (src/args.rs lines
29-58 and 118-161) -/

/-- ASCII lower-casing of one character. -/
def asciiLower (c : Char) : Char :=
  if 65 ≤ c.toNat ∧ c.toNat ≤ 90 then Char.ofNat (c.toNat + 32) else c

/-- ASCII digit test. -/
def isDigitChar (c : Char) : Bool :=
  decide (48 ≤ c.toNat) && decide (c.toNat ≤ 57)

/-- Numeric value of a digit string (no sign). -/
def natVal (l : List Char) : Nat :=
  l.foldl (fun acc c => acc * 10 + (c.toNat - 48)) 0

/-- Value of a non-empty all-digit string, `none` otherwise. -/
def digitsVal (l : List Char) : Option Nat :=
  if l = [] then none
  else if l.all isDigitChar then some (natVal l) else none

/-- Model of `str::parse::<i64>`: optional single sign, one or more ASCII
digits, within the i64 range. -/
def parseI64 (s : List Char) : Option Int :=
  match s with
  | [] => none
  | c :: rest =>
    if c = '+' then
      (digitsVal rest).bind
        (fun n => if (n : Int) ≤ 2 ^ 63 - 1 then some (n : Int) else none)
    else if c = '-' then
      (digitsVal rest).bind
        (fun n => if (n : Int) ≤ 2 ^ 63 then some (-(n : Int)) else none)
    else
      (digitsVal (c :: rest)).bind
        (fun n => if (n : Int) ≤ 2 ^ 63 - 1 then some (n : Int) else none)

/-- Outcome of `str::parse::<f64>`: a finite decimal (kept exactly as
`sig * 10 ^ exp` rather than rounded to IEEE — none of the claims depend
on the rounded value of an in-range literal), infinity (of either sign),
or NaN.  Decimal literals whose magnitude reaches the binary64 overflow
threshold round to infinity, as in Rust's correctly-rounded parse. -/
inductive F64Val where
  | finite (sig : Int) (exp : Int) : F64Val
  | inf : F64Val
  | nan : F64Val
deriving Repr, BEq, DecidableEq

/-- The overflow threshold of IEEE binary64 under round-to-nearest-even:
`f64::MAX` is `2^1024 - 2^971`, and a real with magnitude at least the
midpoint `2^1024 - 2^970` rounds up to infinity (the tie goes to the even
`2^1024`), while anything strictly below rounds to a finite double. -/
def f64InfThreshold : Nat := 2 ^ 1024 - 2 ^ 970

/-- Whether the decimal `sig * 10 ^ exp` rounds to ±infinity in binary64. -/
def f64Overflows (sig exp : Int) : Bool :=
  if 0 ≤ exp then decide (f64InfThreshold ≤ sig.natAbs * 10 ^ exp.toNat)
  else decide (f64InfThreshold * 10 ^ (-exp).toNat ≤ sig.natAbs)

/-- Classify a parsed decimal: saturate to infinity past the binary64
range, as Rust's `f64` parse does (e.g. `"1e400"` parses to `inf`). -/
def mkF64 (sig exp : Int) : F64Val :=
  if f64Overflows sig exp then .inf else .finite sig exp

/-- The optional exponent part of a float literal, applied to the parsed
mantissa digits; the resulting decimal saturates to infinity past the
binary64 range. -/
def parseExpPart (rest : List Char) (intPart fracPart : List Char)
    (neg : Bool) : Option F64Val :=
  let mant : Int := natVal (intPart ++ fracPart)
  let sig : Int := if neg then -mant else mant
  match rest with
  | [] => some (mkF64 sig (-(fracPart.length : Int)))
  | e :: rest2 =>
    if e = 'e' ∨ e = 'E' then
      match rest2 with
      | '+' :: r =>
        if r ≠ [] ∧ r.all isDigitChar
          then some (mkF64 sig ((natVal r : Int) - fracPart.length))
          else none
      | '-' :: r =>
        if r ≠ [] ∧ r.all isDigitChar
          then some (mkF64 sig (-(natVal r : Int) - fracPart.length))
          else none
      | r =>
        if r ≠ [] ∧ r.all isDigitChar
          then some (mkF64 sig ((natVal r : Int) - fracPart.length))
          else none
    else none

/-- Float literal after the optional sign: the case-insensitive words
`inf`, `infinity`, `nan`, or `digits [. digits] [e|E [sign] digits]` with
at least one mantissa digit (also `. digits`). -/
def parseF64Core (l : List Char) (neg : Bool) : Option F64Val :=
  if l.map asciiLower = ['i', 'n', 'f']
      ∨ l.map asciiLower = ['i', 'n', 'f', 'i', 'n', 'i', 't', 'y']
    then some .inf
  else if l.map asciiLower = ['n', 'a', 'n'] then some .nan
  else
    match l.dropWhile isDigitChar with
    | '.' :: rest2 =>
      if l.takeWhile isDigitChar = [] ∧ rest2.takeWhile isDigitChar = []
        then none
      else
        parseExpPart (rest2.dropWhile isDigitChar) (l.takeWhile isDigitChar)
          (rest2.takeWhile isDigitChar) neg
    | rest1 =>
      if l.takeWhile isDigitChar = [] then none
      else parseExpPart rest1 (l.takeWhile isDigitChar) [] neg

/-- Model of `str::parse::<f64>` (grammar per the Rust std docs). -/
def rustParseF64 (s : List Char) : Option F64Val :=
  match s with
  | [] => none
  | c :: rest =>
    if c = '+' then parseF64Core rest false
    else if c = '-' then parseF64Core rest true
    else parseF64Core (c :: rest) false

/-- The single-quote character (written by code to avoid quoting issues). -/
def sqChar : Char := Char.ofNat 39

/-- Model of `str::eq_ignore_ascii_case`. -/
def eqIgnoreAsciiCase (a b : List Char) : Bool :=
  a.map asciiLower = b.map asciiLower

/-- The numeric and JSON tail of `coerce_value` (after the quote, boolean
and null branches): integer first, then float — where serde_json's
`json!(f)` turns a non-finite f64 into `Null` — then brace/bracket JSON via
the external parser `jp` (`serde_json::from_str`), else a bare string. -/
def coerce_numeric (jp : List Char → Option Json) (raw : List Char) : Json :=
  match parseI64 raw with
  | some n => .int n
  | none =>
    match rustParseF64 raw with
    | some (.finite sig exp) => .dec sig exp
    | some _ => .null
    | none =>
      if (raw.head? = some '{' ∧ raw.getLast? = some '}')
          ∨ (raw.head? = some '[' ∧ raw.getLast? = some ']') then
        match jp raw with
        | some v => v
        | none => .str (String.mk raw)
      else .str (String.mk raw)

/-- Model of `coerce_value` (src/args.rs lines 118-161). -/
def coerce_value (jp : List Char → Option Json) (raw : List Char) : Json :=
  if ((raw.head? = some '"' ∧ raw.getLast? = some '"')
      ∨ (raw.head? = some sqChar ∧ raw.getLast? = some sqChar))
      ∧ 2 ≤ raw.length then
    .str (String.mk ((raw.drop 1).dropLast))
  else if eqIgnoreAsciiCase raw ['t', 'r', 'u', 'e'] then .bool true
  else if eqIgnoreAsciiCase raw ['f', 'a', 'l', 's', 'e'] then .bool false
  else if raw = ['n', 'u', 'l', 'l'] then .null
  else coerce_numeric jp raw

/-- Insert into the object under construction (serde_json map insert:
replace an existing key, else append). -/
def insertField (m : List (String × Json)) (k : String) (v : Json) :
    List (String × Json) :=
  if m.any (fun f => f.1 = k) then
    m.map (fun f => if f.1 = k then (k, v) else f)
  else m ++ [(k, v)]

/-- The loop of `parse_args`: split each token at the first `:` (colon
tried first), else the first `=`; empty separators and empty keys are
errors; coerce the value and insert under the key. -/
def parse_args_loop (jp : List Char → Option Json) :
    List (List Char) → List (String × Json) → Except McplugErr Json
  | [], m => .ok (.obj m)
  | arg :: rest, m =>
    match arg.findIdx? (fun c => c = ':') with
    | some pos =>
      if arg.take pos = [] then .error (.protocolError "empty key")
      else
        parse_args_loop jp rest
          (insertField m (String.mk (arg.take pos))
            (coerce_value jp (arg.drop (pos + 1))))
    | none =>
      match arg.findIdx? (fun c => c = '=') with
      | some pos =>
        if arg.take pos = [] then .error (.protocolError "empty key")
        else
          parse_args_loop jp rest
            (insertField m (String.mk (arg.take pos))
              (coerce_value jp (arg.drop (pos + 1))))
      | none => .error (.protocolError "cannot parse argument")

/-- Model of `parse_args` over the external JSON parser `jp`. -/
def parse_args (jp : List Char → Option Json)
    (args : List (List Char)) : Except McplugErr Json :=
  if args = [] then .ok (.obj []) else parse_args_loop jp args []

/-- Whether a JSON value is a float. -/
def Json.isFloat : Json → Bool
  | .dec _ _ => true
  | _ => false

/-- A JSON-parse oracle that always fails (never consulted by the tokens
used below). -/
def jpNone : List Char → Option Json := fun _ => none

set_option maxRecDepth 8192 in
/-- C3 counterexample: the tokens `k:inf` and `k:1e400` have values that
parse as an f64 (infinity — for `1e400` the decimal overflows the binary64
range and the parse saturates), but the coercion produces JSON null —
`json!(f)` maps non-finite floats to `Null` — not a float, contradicting
the coercion table's float row. -/
theorem c3_counterexample :
    parse_args jpNone [['k', ':', 'i', 'n', 'f']]
      = .ok (.obj [("k", .null)])
    ∧ rustParseF64 ['i', 'n', 'f'] = some .inf
    ∧ parse_args jpNone [['k', ':', '1', 'e', '4', '0', '0']]
      = .ok (.obj [("k", .null)])
    ∧ rustParseF64 ['1', 'e', '4', '0', '0'] = some .inf
    ∧ Json.isFloat .null = false := by
  exact ⟨rfl, rfl, rfl, rfl, rfl⟩

lemma findIdx?_all_none {p : Char → Bool} :
    ∀ (l : List Char) (i : Nat), (∀ x ∈ l, p x = false) →
      List.findIdx? p l i = none := by
  intro l
  induction l with
  | nil => intro i _; rfl
  | cons x xs ih =>
    intro i h
    rw [List.findIdx?_cons, h x (by simp)]
    simp only [Bool.false_eq_true, if_false]
    exact ih (i + 1) (fun y hy => h y (by simp [hy]))

lemma findIdx?_append_first {p : Char → Bool} :
    ∀ (k : List Char) (c : Char) (v : List Char) (i : Nat),
      (∀ x ∈ k, p x = false) → p c = true →
      List.findIdx? p (k ++ c :: v) i = some (i + k.length) := by
  intro k
  induction k with
  | nil =>
    intro c v i _ hc
    rw [List.nil_append, List.findIdx?_cons, hc]
    simp
  | cons x xs ih =>
    intro c v i h hc
    rw [List.cons_append, List.findIdx?_cons, h x (by simp)]
    simp only [Bool.false_eq_true, if_false]
    rw [ih c v (i + 1) (fun y hy => h y (by simp [hy])) hc]
    refine congrArg _ ?_
    simp
    omega

lemma parseI64_shape (s : List Char) (n : Int) (h : parseI64 s = some n) :
    ∃ c rest, s = c :: rest
      ∧ (c = '+' ∨ c = '-' ∨ isDigitChar c = true) := by
  cases s with
  | nil => cases h
  | cons c rest =>
    refine ⟨c, rest, rfl, ?_⟩
    by_cases hp : c = '+'
    · exact Or.inl hp
    · by_cases hm : c = '-'
      · exact Or.inr (Or.inl hm)
      · refine Or.inr (Or.inr ?_)
        rw [parseI64, if_neg hp, if_neg hm] at h
        cases hd : digitsVal (c :: rest) with
        | none => rw [hd] at h; cases h
        | some m =>
          unfold digitsVal at hd
          rw [if_neg (by simp)] at hd
          by_cases hall : (c :: rest).all isDigitChar = true
          · rw [List.all_cons, Bool.and_eq_true] at hall
            exact hall.1
          · rw [if_neg hall] at hd
            cases hd

lemma parseF64Core_finite_shape (l : List Char) (neg : Bool)
    (sig exp : Int) (h : parseF64Core l neg = some (.finite sig exp)) :
    ∃ c rest, l = c :: rest ∧ (c = '.' ∨ isDigitChar c = true) := by
  unfold parseF64Core at h
  by_cases hinf : l.map asciiLower = ['i', 'n', 'f']
      ∨ l.map asciiLower = ['i', 'n', 'f', 'i', 'n', 'i', 't', 'y']
  · rw [if_pos hinf] at h
    cases h
  · rw [if_neg hinf] at h
    by_cases hnan : l.map asciiLower = ['n', 'a', 'n']
    · rw [if_pos hnan] at h
      cases h
    · rw [if_neg hnan] at h
      cases l with
      | nil => cases h
      | cons c rest =>
        refine ⟨c, rest, rfl, ?_⟩
        by_cases hc : isDigitChar c = true
        · exact Or.inr hc
        · refine Or.inl ?_
          rw [List.takeWhile_cons, List.dropWhile_cons] at h
          rw [if_neg hc, if_neg hc] at h
          by_cases hdot : c = '.'
          · exact hdot
          · exfalso
            split at h
            · rename_i rest2 heq
              injection heq with h1 h2
              exact hdot h1
            · rw [if_pos rfl] at h
              cases h

lemma parseF64_finite_shape (s : List Char) (sig exp : Int)
    (h : rustParseF64 s = some (.finite sig exp)) :
    ∃ c rest, s = c :: rest
      ∧ (c = '+' ∨ c = '-' ∨ c = '.' ∨ isDigitChar c = true) := by
  cases s with
  | nil => cases h
  | cons c rest =>
    by_cases hp : c = '+'
    · exact ⟨c, rest, rfl, Or.inl hp⟩
    · by_cases hm : c = '-'
      · exact ⟨c, rest, rfl, Or.inr (Or.inl hm)⟩
      · rw [rustParseF64, if_neg hp, if_neg hm] at h
        obtain ⟨c2, rest2, heq, h2⟩ :=
          parseF64Core_finite_shape (c :: rest) false sig exp h
        injection heq with e1 e2
        subst e1
        exact ⟨c, rest, rfl, Or.inr (Or.inr h2)⟩

/-- The five head conditions under which `coerce_value` falls through its
quote, boolean and null branches. -/
lemma coerce_value_plain (jp : List Char → Option Json) (c : Char)
    (rest : List Char)
    (h1 : c ≠ '"') (h2 : c ≠ sqChar)
    (h3 : asciiLower c ≠ 't') (h4 : asciiLower c ≠ 'f') (h5 : c ≠ 'n') :
    coerce_value jp (c :: rest) = coerce_numeric jp (c :: rest) := by
  unfold coerce_value
  rw [if_neg, if_neg, if_neg, if_neg]
  · intro hh
    have : c = 'n' := by
      have := congrArg List.head? hh
      simpa using this
    exact h5 this
  · intro hh
    unfold eqIgnoreAsciiCase at hh
    simp only [List.map_cons, decide_eq_true_eq] at hh
    have : asciiLower c = 'f' := by
      have := congrArg List.head? hh
      simpa using this
    exact h4 this
  · intro hh
    unfold eqIgnoreAsciiCase at hh
    simp only [List.map_cons, decide_eq_true_eq] at hh
    have : asciiLower c = 't' := by
      have := congrArg List.head? hh
      simpa using this
    exact h3 this
  · rintro ⟨hq | hq, _⟩
    · have : c = '"' := by simpa using hq.1
      exact h1 this
    · have : c = sqChar := by simpa using hq.1
      exact h2 this

/-- The head conditions for an ASCII digit. -/
lemma plain_of_digit (c : Char) (h : isDigitChar c = true) :
    c ≠ '"' ∧ c ≠ sqChar ∧ asciiLower c ≠ 't' ∧ asciiLower c ≠ 'f'
      ∧ c ≠ 'n' := by
  have hb : 48 ≤ c.toNat ∧ c.toNat ≤ 57 := by
    unfold isDigitChar at h
    simp only [Bool.and_eq_true, decide_eq_true_eq] at h
    exact h
  have hlow : asciiLower c = c := by
    unfold asciiLower
    rw [if_neg]
    omega
  have htoNat : ∀ d : Char, c = d → c.toNat = d.toNat := fun d hh => by
    rw [hh]
  refine ⟨?_, ?_, ?_, ?_, ?_⟩
  · intro hh
    have := htoNat _ hh
    rw [show ('"' : Char).toNat = 34 from rfl] at this
    omega
  · intro hh
    have := htoNat _ hh
    rw [show sqChar.toNat = 39 from rfl] at this
    omega
  · rw [hlow]
    intro hh
    have := htoNat _ hh
    rw [show ('t' : Char).toNat = 116 from rfl] at this
    omega
  · rw [hlow]
    intro hh
    have := htoNat _ hh
    rw [show ('f' : Char).toNat = 102 from rfl] at this
    omega
  · intro hh
    have := htoNat _ hh
    rw [show ('n' : Char).toNat = 110 from rfl] at this
    omega

lemma take_before_sep (k : List Char) (c : Char) (v : List Char) :
    (k ++ c :: v).take k.length = k := List.take_left k (c :: v)

lemma drop_after_sep (k : List Char) (c : Char) (v : List Char) :
    (k ++ c :: v).drop (k.length + 1) = v := by
  have h : k ++ c :: v = (k ++ [c]) ++ v := by simp
  rw [h]
  have h2 : k.length + 1 = (k ++ [c]).length := by simp
  rw [h2, List.drop_left]

/-- C3 (amended): for a token of shape `k:v` or `k=v` with non-empty `k`,
`parse_args` maps `k` to the coercion of `v`; the separator is the first
occurrence, with any colon winning over equals, so a colon inside a URL
value after the separator is preserved; empty tokens and empty keys are
errors.  The coercion table: quoted strings are stripped, `true`/`false`
case-insensitively become booleans, `null` becomes null, i64 integers
become integers, finite f64 floats become floats (but non-finite f64
parses — inf/infinity/nan — become JSON null, per serde_json), braced or
bracketed JSON embeds the parsed value, and anything else is a bare
string. -/
theorem c3_parse_args_coercion (jp : List Char → Option Json) :
    (∀ k v, (∀ x ∈ k, x ≠ ':') → k ≠ [] →
      parse_args jp [k ++ ':' :: v]
        = .ok (.obj [(String.mk k, coerce_value jp v)]))
    ∧ (∀ k v, (∀ x ∈ k, x ≠ ':') → (∀ x ∈ v, x ≠ ':') →
        (∀ x ∈ k, x ≠ '=') → k ≠ [] →
      parse_args jp [k ++ '=' :: v]
        = .ok (.obj [(String.mk k, coerce_value jp v)]))
    ∧ parse_args jp [[]] = .error (.protocolError "cannot parse argument")
    ∧ (∀ v, parse_args jp [':' :: v] = .error (.protocolError "empty key"))
    ∧ (∀ v, (∀ x ∈ v, x ≠ ':') →
        parse_args jp ['=' :: v] = .error (.protocolError "empty key"))
    ∧ (∀ s, coerce_value jp ('"' :: s ++ ['"']) = .str (String.mk s))
    ∧ (∀ s, coerce_value jp (sqChar :: s ++ [sqChar]) = .str (String.mk s))
    ∧ (∀ s, eqIgnoreAsciiCase s ['t', 'r', 'u', 'e'] = true →
        coerce_value jp s = .bool true)
    ∧ (∀ s, eqIgnoreAsciiCase s ['f', 'a', 'l', 's', 'e'] = true →
        coerce_value jp s = .bool false)
    ∧ coerce_value jp ['n', 'u', 'l', 'l'] = .null
    ∧ (∀ s n, parseI64 s = some n → coerce_value jp s = .int n)
    ∧ (∀ s sig exp, parseI64 s = none →
        rustParseF64 s = some (.finite sig exp) →
        coerce_value jp s = .dec sig exp)
    ∧ (∀ s j, parseI64 s = none → rustParseF64 s = none →
        ((s.head? = some '{' ∧ s.getLast? = some '}')
          ∨ (s.head? = some '[' ∧ s.getLast? = some ']')) →
        jp s = some j → coerce_value jp s = j)
    ∧ (∀ s, ¬(((s.head? = some '"' ∧ s.getLast? = some '"')
            ∨ (s.head? = some sqChar ∧ s.getLast? = some sqChar))
          ∧ 2 ≤ s.length) →
        eqIgnoreAsciiCase s ['t', 'r', 'u', 'e'] = false →
        eqIgnoreAsciiCase s ['f', 'a', 'l', 's', 'e'] = false →
        s ≠ ['n', 'u', 'l', 'l'] →
        parseI64 s = none → rustParseF64 s = none →
        ¬((s.head? = some '{' ∧ s.getLast? = some '}')
          ∨ (s.head? = some '[' ∧ s.getLast? = some ']')) →
        coerce_value jp s = .str (String.mk s)) := by
  refine ⟨?_, ?_, ?_, ?_, ?_, ?_, ?_, ?_, ?_, ?_, ?_, ?_, ?_, ?_⟩
  · intro k v hk hkne
    have hfind : List.findIdx? (fun c => c = ':') (k ++ ':' :: v)
        = some k.length := by
      have := findIdx?_append_first (p := fun c => decide (c = ':'))
        k ':' v 0
        (fun x hx => by
          simp only [decide_eq_false_iff_not]
          exact hk x hx)
        (by simp)
      simpa using this
    unfold parse_args
    rw [if_neg (by simp)]
    simp only [parse_args_loop, hfind, take_before_sep, drop_after_sep]
    rw [if_neg hkne]
    simp [parse_args_loop, insertField]
  · intro k v hk hv hke hkne
    have hnocolon : List.findIdx? (fun c => c = ':') (k ++ '=' :: v)
        = none := by
      apply findIdx?_all_none
      intro x hx
      simp only [decide_eq_false_iff_not]
      rcases List.mem_append.mp hx with h | h
      · exact hk x h
      · rcases List.mem_cons.mp h with h | h
        · rw [h]; decide
        · exact hv x h
    have hfind : List.findIdx? (fun c => c = '=') (k ++ '=' :: v)
        = some k.length := by
      have := findIdx?_append_first (p := fun c => decide (c = '='))
        k '=' v 0
        (fun x hx => by
          simp only [decide_eq_false_iff_not]
          exact hke x hx)
        (by simp)
      simpa using this
    unfold parse_args
    rw [if_neg (by simp)]
    simp only [parse_args_loop, hnocolon, hfind, take_before_sep,
      drop_after_sep]
    rw [if_neg hkne]
    simp [parse_args_loop, insertField]
  · rfl
  · intro v
    rfl
  · intro v hv
    have hnocolon : List.findIdx? (fun c => c = ':') ('=' :: v) = none := by
      apply findIdx?_all_none
      intro x hx
      simp only [decide_eq_false_iff_not]
      rcases List.mem_cons.mp hx with h | h
      · rw [h]; decide
      · exact hv x h
    unfold parse_args
    rw [if_neg (by simp)]
    simp only [parse_args_loop, hnocolon, List.findIdx?_cons]
    rfl
  · intro s
    unfold coerce_value
    rw [if_pos]
    · rw [show ('"' :: s ++ ['"']).drop 1 = s ++ ['"'] by simp]
      rw [List.dropLast_concat]
    · constructor
      · exact Or.inl ⟨by simp, List.getLast?_concat _⟩
      · simp
  · intro s
    unfold coerce_value
    rw [if_pos]
    · rw [show (sqChar :: s ++ [sqChar]).drop 1 = s ++ [sqChar] by simp]
      rw [List.dropLast_concat]
    · constructor
      · refine Or.inr ⟨by simp, List.getLast?_concat _⟩
      · simp
  · intro s h
    cases s with
    | nil => simp [eqIgnoreAsciiCase] at h
    | cons c rest =>
      have hlow : asciiLower c = 't' := by
        unfold eqIgnoreAsciiCase at h
        simp only [decide_eq_true_eq] at h
        have := congrArg List.head? h
        simpa [asciiLower] using this
      have h1 : c ≠ '"' := by
        intro hh
        rw [hh] at hlow
        exact absurd hlow (by decide)
      have h2 : c ≠ sqChar := by
        intro hh
        rw [hh] at hlow
        exact absurd hlow (by decide)
      unfold coerce_value
      rw [if_neg, if_pos h]
      rintro ⟨hq | hq, _⟩
      · exact h1 (by simpa using hq.1)
      · exact h2 (by simpa using hq.1)
  · intro s h
    cases s with
    | nil => simp [eqIgnoreAsciiCase] at h
    | cons c rest =>
      have hlow : asciiLower c = 'f' := by
        unfold eqIgnoreAsciiCase at h
        simp only [decide_eq_true_eq] at h
        have := congrArg List.head? h
        simpa [asciiLower] using this
      have h1 : c ≠ '"' := by
        intro hh
        rw [hh] at hlow
        exact absurd hlow (by decide)
      have h2 : c ≠ sqChar := by
        intro hh
        rw [hh] at hlow
        exact absurd hlow (by decide)
      have hnott : eqIgnoreAsciiCase (c :: rest) ['t', 'r', 'u', 'e']
          ≠ true := by
        intro hh
        unfold eqIgnoreAsciiCase at h hh
        simp only [decide_eq_true_eq] at h hh
        have hl5 := congrArg List.length h
        have hl4 := congrArg List.length hh
        simp at hl5 hl4
        omega
      unfold coerce_value
      rw [if_neg, if_neg hnott, if_pos h]
      rintro ⟨hq | hq, _⟩
      · exact h1 (by simpa using hq.1)
      · exact h2 (by simpa using hq.1)
  · rfl
  · intro s n h
    obtain ⟨c, rest, rfl, hc⟩ := parseI64_shape s n h
    have hplain : coerce_value jp (c :: rest)
        = coerce_numeric jp (c :: rest) := by
      rcases hc with hp | hm | hd
      · subst hp
        exact coerce_value_plain jp '+' rest (by decide) (by decide)
          (by decide) (by decide) (by decide)
      · subst hm
        exact coerce_value_plain jp '-' rest (by decide) (by decide)
          (by decide) (by decide) (by decide)
      · obtain ⟨h1, h2, h3, h4, h5⟩ := plain_of_digit c hd
        exact coerce_value_plain jp c rest h1 h2 h3 h4 h5
    rw [hplain]
    unfold coerce_numeric
    rw [h]
  · intro s sig exp hI hF
    obtain ⟨c, rest, rfl, hc⟩ := parseF64_finite_shape s sig exp hF
    have hplain : coerce_value jp (c :: rest)
        = coerce_numeric jp (c :: rest) := by
      rcases hc with hp | hm | hdot | hd
      · subst hp
        exact coerce_value_plain jp '+' rest (by decide) (by decide)
          (by decide) (by decide) (by decide)
      · subst hm
        exact coerce_value_plain jp '-' rest (by decide) (by decide)
          (by decide) (by decide) (by decide)
      · subst hdot
        exact coerce_value_plain jp '.' rest (by decide) (by decide)
          (by decide) (by decide) (by decide)
      · obtain ⟨h1, h2, h3, h4, h5⟩ := plain_of_digit c hd
        exact coerce_value_plain jp c rest h1 h2 h3 h4 h5
    rw [hplain]
    unfold coerce_numeric
    rw [hI, hF]
  · intro s j hI hF hb hjp
    have hplain : coerce_value jp s = coerce_numeric jp s := by
      cases s with
      | nil =>
        rcases hb with ⟨hh, _⟩ | ⟨hh, _⟩ <;> simp at hh
      | cons c rest =>
        rcases hb with ⟨hh, _⟩ | ⟨hh, _⟩
        · have : c = '{' := by simpa using hh
          subst this
          exact coerce_value_plain jp '{' rest (by decide) (by decide)
            (by decide) (by decide) (by decide)
        · have : c = '[' := by simpa using hh
          subst this
          exact coerce_value_plain jp '[' rest (by decide) (by decide)
            (by decide) (by decide) (by decide)
    rw [hplain]
    unfold coerce_numeric
    rw [hI, hF, if_pos hb, hjp]
  · intro s hq ht hf hn hI hF hb
    unfold coerce_value
    rw [if_neg hq, if_neg (by simp [ht]), if_neg (by simp [hf]),
      if_neg hn]
    unfold coerce_numeric
    rw [hI, hF, if_neg hb]

set_option maxRecDepth 8192 in
/-- Witness for `c3_parse_args_coercion` at concrete tokens: a URL value
whose colons after the separator are preserved, an integer value, and a
float value. -/
theorem c3_witness :
    (∀ x ∈ ['u', 'r', 'l'], x ≠ ':')
    ∧ (['u', 'r', 'l'] : List Char) ≠ []
    ∧ parse_args jpNone
        [['u', 'r', 'l'] ++ ':' :: ['h', 't', 't', 'p', ':', '/', '/', 'x']]
      = .ok (.obj [("url",
          coerce_value jpNone ['h', 't', 't', 'p', ':', '/', '/', 'x'])])
    ∧ coerce_value jpNone ['h', 't', 't', 'p', ':', '/', '/', 'x']
      = .str "http://x"
    ∧ parseI64 ['4', '2'] = some 42
    ∧ coerce_value jpNone ['4', '2'] = .int 42
    ∧ parseI64 ['3', '.', '1', '4'] = none
    ∧ rustParseF64 ['3', '.', '1', '4'] = some (.finite 314 (-2))
    ∧ coerce_value jpNone ['3', '.', '1', '4'] = .dec 314 (-2) := by
  refine ⟨by decide, by decide, ?_, rfl, rfl, ?_, rfl, rfl, ?_⟩
  · exact (c3_parse_args_coercion jpNone).1
      ['u', 'r', 'l'] ['h', 't', 't', 'p', ':', '/', '/', 'x']
      (by decide) (by decide)
  · exact (c3_parse_args_coercion jpNone).2.2.2.2.2.2.2.2.2.2.1
      ['4', '2'] 42 rfl
  · exact (c3_parse_args_coercion jpNone).2.2.2.2.2.2.2.2.2.2.2.1
      ['3', '.', '1', '4'] 314 (-2) rfl rfl
